import Mathlib

/-!
Shallow embedding of the social-network engagement pipeline
(`src/data/preprocessing.py` and `src/analysis/engajamento.py`).

Modelling conventions:
* a pandas `DataFrame` is a `List` of row structures, one structure per schema;
* text cells are `Option (List Nat)` (code points; `none` is pandas `NA`);
* date cells are `Cell` (`na` = `NaT`, `txt` = unparsed text, `dat` = a
  parsed timestamp at day granularity, stored as days-from-civil);
* `pd.to_datetime(·, errors="coerce")` is `Cell.toDatetime`, built on a
  concrete `YYYY-MM-DD` parser (`parseDate`);
* `merge(..., how="left")` is `mergeLeft`: left rows in order, one output row
  per matching right row, or a single all-`none` enrichment when no match;
* `groupby(..., sort=True)` enumerates the distinct keys in ascending order
  (`List.insertionSort` on a decidable total order) and pandas' stable row
  ordering of `sort_values` is `List.insertionSort` with a non-strict
  comparison, which is stable;
* `.head(n)` follows pandas semantics: first `n` rows for `n ≥ 0`, and all
  rows except the last `|n|` for negative `n`;
* `round(·, 2)` is half-even rounding on `ℚ` at two decimals.
-/

namespace SocialNet

/-- Code points of a string literal, the text representation used throughout. -/
def str (s : String) : List Nat := s.data.map Char.toNat

/-- ASCII whitespace stripped by `pandas.Series.str.strip`. -/
def isSpaceCode (n : Nat) : Bool :=
  n = 32 || n = 9 || n = 10 || n = 13

/-- Lower-casing of one code point (ASCII letters), as in `Series.str.lower`. -/
def lowerCode (n : Nat) : Nat :=
  if 65 ≤ n ∧ n ≤ 90 then n + 32 else n

/-- Pandas `str.strip`: drop leading and trailing whitespace. -/
def stripCodes (s : List Nat) : List Nat :=
  ((s.dropWhile isSpaceCode).reverse.dropWhile isSpaceCode).reverse

/-- Pandas `str.lower`: lower-case every character. -/
def lowerCodes (s : List Nat) : List Nat := s.map lowerCode

/-- Model of `_normalize_str_series` applied to one cell: strip then lower-case,
propagating `NA`. -/
def normalizeStr (s : Option (List Nat)) : Option (List Nat) :=
  s.map (fun t => lowerCodes (stripCodes t))

/-- Pandas `Series.str.strip` on one cell, propagating `NA`. -/
def stripStr (s : Option (List Nat)) : Option (List Nat) :=
  s.map stripCodes

/-- A date-bearing cell: `na` is `NaT`/missing, `txt` is raw text,
`dat` is a parsed timestamp (day granularity, days from civil epoch). -/
inductive Cell where
  | na : Cell
  | txt : List Nat → Cell
  | dat : Int → Cell
deriving DecidableEq, Repr

/-- Whether a cell holds a parsed date (is not dropped by `dropna`). -/
def Cell.isDat : Cell → Bool
  | .dat _ => true
  | _ => false

/-- The day number held by a parsed cell. -/
def Cell.dayOf : Cell → Option Int
  | .dat d => some d
  | _ => none

/-- Days from 1970-01-01 of a proleptic Gregorian civil date
(Hinnant's `days_from_civil`). -/
def daysFromCivil (y m d : Int) : Int :=
  let y' := if m ≤ 2 then y - 1 else y
  let era := (if 0 ≤ y' then y' else y' - 399) / 400
  let yoe := y' - era * 400
  let mp := (m + 9) % 12
  let doy := (153 * mp + 2) / 5 + d - 1
  let doe := yoe * 365 + yoe / 4 - yoe / 100 + doy
  era * 146097 + doe - 719468

/-- Decimal digit value of a code point. -/
def digitVal (n : Nat) : Option Nat :=
  if 48 ≤ n ∧ n ≤ 57 then some (n - 48) else none

/-- Read a fixed-width run of decimal digits. -/
def readDigits : List Nat → Option Nat
  | [] => some 0
  | _ => none

/-- Read exactly the given digits into a number (all must be digits). -/
def readNat (s : List Nat) : Option Nat :=
  s.foldl (fun acc c => acc.bind (fun a => (digitVal c).map (fun v => a * 10 + v)))
    (some 0)

/-- Concrete stand-in for the date parsing done by
`pd.to_datetime(errors="coerce")`: accepts `YYYY-MM-DD` and returns the day
number; anything else is unparseable. -/
def parseDate (s : List Nat) : Option Int :=
  match s with
  | [y1, y2, y3, y4, h1, m1, m2, h2, d1, d2] =>
    if h1 = 45 ∧ h2 = 45 then
      match readNat [y1, y2, y3, y4], readNat [m1, m2], readNat [d1, d2] with
      | some y, some m, some d =>
        if 1 ≤ m ∧ m ≤ 12 ∧ 1 ≤ d ∧ d ≤ 31 then
          some (daysFromCivil (Int.ofNat y) (Int.ofNat m) (Int.ofNat d))
        else none
      | _, _, _ => none
    else none
  | _ => none

/-- Model of `pd.to_datetime(·, errors="coerce")` on one cell: text parses or becomes
`NaT`; already-parsed values pass through; `NA` stays `NaT`. -/
def Cell.toDatetime : Cell → Cell
  | .na => .na
  | .txt s =>
    match parseDate s with
    | some d => .dat d
    | none => .na
  | .dat d => .dat d

/-- Row of the raw/cleaned `usuarios` table. -/
structure Usuario where
  usuario_id : Int
  nome : Option (List Nat)
  segmento : Option (List Nat)
deriving DecidableEq, Repr

/-- Row of the raw/cleaned `conteudos` table. -/
structure Conteudo where
  conteudo_id : Int
  autor_id : Int
  categoria : Option (List Nat)
  data_publicacao : Cell
deriving DecidableEq, Repr

/-- Row of the raw/cleaned `interacoes` table. `peso_interacao` is absent
(`none`) in raw data and attached by `clean_interacoes`. -/
structure Interacao where
  interacao_id : Int
  conteudo_id : Int
  usuario_id : Int
  tipo_interacao : Option (List Nat)
  data_interacao : Cell
  peso_interacao : Option Int
deriving DecidableEq, Repr

/-- The fixed `INTERACTION_WEIGHTS` table from `preprocessing.py`. -/
def INTERACTION_WEIGHTS : List (List Nat × Int) :=
  [(str "curtida", 1), (str "comentario", 2), (str "compartilhamento", 3)]

/-- Dictionary lookup in the weight table (`.map(INTERACTION_WEIGHTS)` /
`.isin(INTERACTION_WEIGHTS)`). -/
def weightLookup (t : List Nat) : Option Int :=
  (INTERACTION_WEIGHTS.find? (fun p => p.1 = t)).map (·.2)

/-- First-occurrence deduplication by an integer key
(`drop_duplicates(subset=key)`), with the set of already-seen keys explicit. -/
def dedupBy {α : Type} (key : α → Int) (seen : List Int) : List α → List α
  | [] => []
  | a :: as =>
    if key a ∈ seen then dedupBy key seen as
    else a :: dedupBy key (key a :: seen) as

/-- The per-row effect of `clean_usuarios`' column assignments: trim `nome`,
normalize `segmento`. -/
def userTransform (r : Usuario) : Usuario :=
  { r with
    nome := stripStr r.nome
    segmento := normalizeStr r.segmento }

/-- Model of `clean_usuarios`: trim `nome`, normalize `segmento`,
`drop_duplicates(subset="usuario_id")`, reset index. -/
def clean_usuarios (df : List Usuario) : List Usuario :=
  dedupBy (·.usuario_id) [] (df.map userTransform)

/-- The per-row effect of `clean_conteudos`' column assignments: normalize
`categoria`, coerce `data_publicacao` to datetime. -/
def conteudoTransform (r : Conteudo) : Conteudo :=
  { r with
    categoria := normalizeStr r.categoria
    data_publicacao := r.data_publicacao.toDatetime }

/-- Model of `clean_conteudos`: normalize `categoria`, coerce `data_publicacao` to
datetime, drop rows whose date failed to parse. -/
def clean_conteudos (df : List Conteudo) : List Conteudo :=
  (df.map conteudoTransform).filter (fun r => r.data_publicacao.isDat)

/-- Validity test used by `clean_interacoes`' `isin` filter: the (already
normalized) type is a key of the weight table (`NA` is never `isin`). -/
def roleValidTipo (t : Option (List Nat)) : Bool :=
  match t with
  | some s => (weightLookup s).isSome
  | none => false

/-- The per-row effect of `clean_interacoes`' column assignments: normalize
`tipo_interacao`, coerce `data_interacao` to datetime. -/
def interTransform (r : Interacao) : Interacao :=
  { r with
    tipo_interacao := normalizeStr r.tipo_interacao
    data_interacao := r.data_interacao.toDatetime }

/-- The per-row effect of the `peso_interacao` column assignment:
`cleaned["tipo_interacao"].map(INTERACTION_WEIGHTS)`. -/
def pesoAttach (r : Interacao) : Interacao :=
  { r with peso_interacao := r.tipo_interacao.bind weightLookup }

/-- Model of `clean_interacoes`: normalize `tipo_interacao`, coerce `data_interacao`,
drop unparseable dates, keep only known types, attach `peso_interacao`,
reset index. -/
def clean_interacoes (df : List Interacao) : List Interacao :=
  (((df.map interTransform).filter
      (fun r => r.data_interacao.isDat)).filter
      (fun r => roleValidTipo r.tipo_interacao)).map pesoAttach

/-- Row of the unified engagement dataset (the column set produced by the
three merges of `build_engagement_dataset`; join-supplied columns are
optional because a left join can leave them missing). -/
structure EngRow where
  interacao_id : Int
  conteudo_id : Int
  usuario_id : Int
  tipo_interacao : Option (List Nat)
  data_interacao : Cell
  peso_interacao : Option Int
  autor_id : Option Int
  categoria : Option (List Nat)
  data_publicacao : Cell
  autor_nome : Option (List Nat)
  segmento_autor : Option (List Nat)
  usuario_nome : Option (List Nat)
  segmento_usuario : Option (List Nat)
  dia_interacao : Option Int
deriving DecidableEq, Repr

/-- Pandas `merge(..., how="left")`: each left row in order; one output row per
matching right row (in right order), or one row with missing enrichment when
nothing matches. -/
def mergeLeft {α β γ : Type} (ls : List α) (rs : List β)
    (mt : α → β → Bool) (comb : α → Option β → γ) : List γ :=
  ls.flatMap (fun a =>
    match rs.filter (fun b => mt a b) with
    | [] => [comb a none]
    | bs => bs.map (fun b => comb a (some b)))

/-- Join step 1: interactions ⟕ contents on `conteudo_id`. -/
def joinConteudo (i : Interacao) (c : Option Conteudo) : EngRow :=
  { interacao_id := i.interacao_id
    conteudo_id := i.conteudo_id
    usuario_id := i.usuario_id
    tipo_interacao := i.tipo_interacao
    data_interacao := i.data_interacao
    peso_interacao := i.peso_interacao
    autor_id := c.map (·.autor_id)
    categoria := c.bind (·.categoria)
    data_publicacao := match c with
      | some c' => c'.data_publicacao
      | none => .na
    autor_nome := none
    segmento_autor := none
    usuario_nome := none
    segmento_usuario := none
    dia_interacao := none }

/-- Join step 2: ⟕ the author projection of users on `autor_id`
(the `autores` rename of `usuarios`). -/
def joinAutor (m : EngRow) (a : Option Usuario) : EngRow :=
  { m with
    autor_nome := a.bind (·.nome)
    segmento_autor := a.bind (·.segmento) }

/-- Join step 3: ⟕ the participant projection of users on `usuario_id`
(the `participantes` rename of `usuarios`). -/
def joinParticipante (m : EngRow) (u : Option Usuario) : EngRow :=
  { m with
    usuario_nome := u.bind (·.nome)
    segmento_usuario := u.bind (·.segmento) }

/-- The `dropna(subset=[autor_nome, usuario_nome, categoria,
data_publicacao])` predicate. -/
def keepRow (r : EngRow) : Bool :=
  r.autor_nome.isSome && r.usuario_nome.isSome && r.categoria.isSome &&
    r.data_publicacao.isDat

/-- The join/filter pipeline of `build_engagement_dataset` once the three
collections are known to be present. -/
def buildCore (us : List Usuario) (cs : List Conteudo) (is : List Interacao) :
    List EngRow :=
  let usuarios := clean_usuarios us
  let conteudos := clean_conteudos cs
  let interacoes := clean_interacoes is
  let m1 := mergeLeft interacoes conteudos
    (fun i c => i.conteudo_id = c.conteudo_id) joinConteudo
  let m2 := mergeLeft m1 usuarios
    (fun m a => m.autor_id = some a.usuario_id) joinAutor
  let m3 := mergeLeft m2 usuarios
    (fun m u => m.usuario_id = u.usuario_id) joinParticipante
  (m3.filter keepRow).map
    (fun r => { r with dia_interacao := r.data_interacao.dayOf })

/-- The fully-enriched row a single cleaned interaction becomes when every
join key matches at most one right-hand row: content, then author, then
participant enrichment, each by first (unique) match. -/
def enrichRow (U : List Usuario) (C : List Conteudo) (i : Interacao) : EngRow :=
  let m1 := joinConteudo i
    ((C.filter (fun c => i.conteudo_id = c.conteudo_id)).head?)
  let m2 := joinAutor m1
    ((U.filter (fun a => m1.autor_id = some a.usuario_id)).head?)
  joinParticipante m2
    ((U.filter (fun u => m2.usuario_id = u.usuario_id)).head?)

/-- The derived `dia_interacao` column assignment. -/
def diaAttach (r : EngRow) : EngRow :=
  { r with dia_interacao := r.data_interacao.dayOf }

/-- A cleaned interaction "resolves" when its content exists (with category
and publish date present), that content's author exists with a name, and the
interacting participant exists with a name — exactly what the post-join
`dropna` requires. -/
def resolves (U : List Usuario) (C : List Conteudo) (i : Interacao) : Prop :=
  (∃ c ∈ C, i.conteudo_id = c.conteudo_id ∧ c.categoria.isSome ∧
    c.data_publicacao.isDat ∧
    ∃ a ∈ U, a.usuario_id = c.autor_id ∧ a.nome.isSome) ∧
  (∃ u ∈ U, i.usuario_id = u.usuario_id ∧ u.nome.isSome)

/-- The input dictionary of `build_engagement_dataset`; a `none` field is a
key entirely absent from the map. -/
structure RawDatasets where
  usuarios : Option (List Usuario)
  conteudos : Option (List Conteudo)
  interacoes : Option (List Interacao)
deriving Repr

/-- Model of `build_engagement_dataset`: accessing a missing dictionary key raises
`KeyError(<name>)`; otherwise clean, join, filter, derive `dia_interacao`. -/
def build_engagement_dataset (datasets : RawDatasets) :
    Except (List Nat) (List EngRow) :=
  match datasets.usuarios with
  | none => .error (str "usuarios")
  | some us =>
    match datasets.conteudos with
    | none => .error (str "conteudos")
    | some cs =>
      match datasets.interacoes with
      | none => .error (str "interacoes")
      | some is => .ok (buildCore us cs is)

/-! ### Metrics engine (`src/analysis/engajamento.py`) -/

/-- Numeric value a pandas sum sees in `peso_interacao` (`NaN` is skipped,
contributing 0). -/
def pesoVal (r : EngRow) : Int := r.peso_interacao.getD 0

/-- First-occurrence list of distinct values (`Series.nunique` support). -/
def dedupFirst {α : Type} [DecidableEq α] : List α → List α
  | [] => []
  | a :: as => a :: (dedupFirst as).filter (fun b => b ≠ a)

/-- Pandas `Series.nunique` on non-null values. -/
def nunique {α : Type} [DecidableEq α] (l : List α) : Nat :=
  (dedupFirst l).length

/-- Half-even (banker's) rounding of a rational to an integer. -/
def roundHE (q : ℚ) : ℤ :=
  let f := ⌊q⌋
  if q - f < 1 / 2 then f
  else if 1 / 2 < q - f then f + 1
  else if f % 2 = 0 then f else f + 1

/-- Python `round(·, 2)`: half-even rounding at two decimal places. -/
def round2 (q : ℚ) : ℚ := (roundHE (q * 100) : ℚ) / 100

/-- Result bundle of `global_engagement_metrics`. -/
structure GlobalMetrics where
  total_interacoes : Nat
  conteudos_analisados : Nat
  usuarios_participantes : Nat
  engajamento_medio_por_conteudo : ℚ
deriving DecidableEq, Repr

/-- Model of `global_engagement_metrics`: unique counts, and mean engagement per
content (0.0 when there is no content, avoiding division by zero). -/
def global_engagement_metrics (df : List EngRow) : GlobalMetrics :=
  let total_conteudos := nunique (df.map (·.conteudo_id))
  let soma_pesos : ℚ := ((df.map pesoVal).sum : ℤ)
  { total_interacoes := nunique (df.map (·.interacao_id))
    conteudos_analisados := total_conteudos
    usuarios_participantes := nunique (df.map (·.usuario_id))
    engajamento_medio_por_conteudo :=
      if total_conteudos = 0 then 0
      else round2 (soma_pesos / (total_conteudos : ℚ)) }

/-- Lexicographic `≤` on code-point lists (pandas ascending string order). -/
def codesLe (a b : List Nat) : Bool :=
  match a, b with
  | [], _ => true
  | _ :: _, [] => false
  | x :: xs, y :: ys => x < y || (x = y && codesLe xs ys)

/-- Ascending order on `groupby(["autor_id", "autor_nome"])` keys. -/
def authorKeyLe (p q : Int × List Nat) : Prop :=
  p.1 < q.1 ∨ (p.1 = q.1 ∧ codesLe p.2 q.2 = true)

instance : DecidableRel authorKeyLe := fun p q => by
  unfold authorKeyLe; infer_instance

/-- Row of the author ranking. -/
structure RankRow where
  autor_id : Int
  autor_nome : List Nat
  score_engajamento : Int
deriving DecidableEq, Repr

/-- Descending comparison used by `sort_values(by="score_engajamento",
ascending=False)`. -/
def rankGe (a b : RankRow) : Prop :=
  b.score_engajamento ≤ a.score_engajamento

instance : DecidableRel rankGe := fun a b => by
  unfold rankGe; infer_instance

/-- The `(autor_id, autor_nome)` group key of a unified row, when both parts
are non-null (`groupby` drops null keys). -/
def authorKey (r : EngRow) : Option (Int × List Nat) :=
  match r.autor_id, r.autor_nome with
  | some i, some n => some (i, n)
  | _, _ => none

/-- The grouped-and-summed ranking before sorting by score:
`groupby(["autor_id","autor_nome"], as_index=False)["peso_interacao"].sum()`,
group keys enumerated in ascending key order (pandas `sort=True`). -/
def rankingGroups (df : List EngRow) : List RankRow :=
  (List.insertionSort authorKeyLe (dedupFirst (df.filterMap authorKey))).map
    (fun k =>
      { autor_id := k.1
        autor_nome := k.2
        score_engajamento :=
          ((df.filter (fun r => authorKey r = some k)).map pesoVal).sum })

/-- Pandas `DataFrame.head(n)`: first `n` rows when `n ≥ 0`, all but the last `|n|`
rows when `n` is negative. -/
def headPD {α : Type} (n : Int) (l : List α) : List α :=
  if 0 ≤ n then l.take n.toNat else l.take (l.length - (-n).toNat)

/-- Model of `top_autores_por_engajamento`: group by author, sum weights, sort
descending by score (stable), take the head. -/
def top_autores_por_engajamento (df : List EngRow) (top_n : Int := 5) :
    List RankRow :=
  headPD top_n (List.insertionSort rankGe (rankingGroups df))

/-- Row of the category breakdown. -/
structure CatRow where
  categoria : List Nat
  interacoes : Nat
  score : Int
deriving DecidableEq, Repr

/-- Descending comparison on category score. -/
def catGe (a b : CatRow) : Prop := b.score ≤ a.score

instance : DecidableRel catGe := fun a b => by
  unfold catGe; infer_instance

/-- Ascending order on `groupby("categoria")` keys. -/
def catKeyLe (a b : List Nat) : Prop := codesLe a b = true

instance : DecidableRel catKeyLe := fun a b => by
  unfold catKeyLe; infer_instance

/-- Model of `interacoes_por_categoria`: group by category (null keys dropped), count
interactions and sum weights, sort descending by score. -/
def interacoes_por_categoria (df : List EngRow) : List CatRow :=
  let rows := df.filter (fun r => r.categoria.isSome)
  let keys := List.insertionSort catKeyLe (dedupFirst (rows.filterMap (·.categoria)))
  List.insertionSort catGe
    (keys.map (fun c =>
      { categoria := c
        interacoes := (rows.filter (fun r => r.categoria = some c)).length
        score := ((rows.filter (fun r => r.categoria = some c)).map pesoVal).sum }))

/-- Row of the daily timeline. -/
structure TimelineRow where
  data_interacao : Int
  interacoes : Nat
  score : Int
deriving DecidableEq, Repr

/-- Smallest element of an integer list. -/
def listMin : List Int → Option Int
  | [] => none
  | a :: as =>
    some (match listMin as with
      | none => a
      | some m => min a m)

/-- Largest element of an integer list. -/
def listMax : List Int → Option Int
  | [] => none
  | a :: as =>
    some (match listMax as with
      | none => a
      | some m => max a m)

/-- Model of `timeline_engajamento`: `set_index("data_interacao").resample("D")` with
count/sum aggregation — one row per calendar day from the smallest to the
largest interaction day, empty days counting 0. -/
def timeline_engajamento (df : List EngRow) : List TimelineRow :=
  let days := df.filterMap (fun r => r.data_interacao.dayOf)
  match listMin days, listMax days with
  | some lo, some hi =>
    (List.range (hi - lo + 1).toNat).map (fun k : Nat =>
      { data_interacao := lo + (k : Int)
        interacoes :=
          (df.filter
            (fun r => r.data_interacao.dayOf = some (lo + (k : Int)))).length
        score :=
          ((df.filter
            (fun r => r.data_interacao.dayOf = some (lo + (k : Int)))).map
              pesoVal).sum })
  | _, _ => []

/-- Row of the interaction-type distribution. -/
structure TipoRow where
  tipo_interacao : List Nat
  quantidade : Nat
  percentual : ℚ
deriving DecidableEq, Repr

/-- Descending comparison on distribution counts. -/
def tipoGe (a b : TipoRow) : Prop := b.quantidade ≤ a.quantidade

instance : DecidableRel tipoGe := fun a b => by
  unfold tipoGe; infer_instance

/-- Model of `distribuicao_tipo_interacao`: total = count of (non-null) interaction
ids; group by type (null keys dropped) with counts; percentage is
`round(count / total * 100, 2)` guarded by `np.where(total == 0, 0.0, ·)`;
sort descending by count. -/
def distribuicao_tipo_interacao (df : List EngRow) : List TipoRow :=
  let total := df.length
  let tipos := df.filterMap (·.tipo_interacao)
  let keys := List.insertionSort catKeyLe (dedupFirst tipos)
  List.insertionSort tipoGe
    (keys.map (fun t =>
      { tipo_interacao := t
        quantidade := tipos.count t
        percentual :=
          if total = 0 then 0
          else round2 ((tipos.count t : ℚ) / (total : ℚ) * 100) }))

/-- Concrete two-row unified collection (days 10 and 12) used to exercise
the timeline. -/
def timelineWitnessDf : List EngRow :=
  [⟨1, 101, 1, some (str "curtida"), .dat 10, some 1, some 1,
      some (str "v"), .dat 9, some (str "a"), some (str "x"),
      some (str "a"), some (str "x"), some 10⟩,
    ⟨2, 101, 1, some (str "curtida"), .dat 12, some 1, some 1,
      some (str "v"), .dat 9, some (str "a"), some (str "x"),
      some (str "a"), some (str "x"), some 12⟩]

/-- Concrete three-row unified collection (two curtidas, one comentario)
used to exercise the distribution. -/
def distributionWitnessDf : List EngRow :=
  [⟨1, 101, 1, some (str "curtida"), .dat 0, some 1, some 1,
      some (str "v"), .dat 0, some (str "a"), some (str "x"),
      some (str "a"), some (str "x"), some 0⟩,
    ⟨2, 101, 1, some (str "curtida"), .dat 0, some 1, some 1,
      some (str "v"), .dat 0, some (str "a"), some (str "x"),
      some (str "a"), some (str "x"), some 0⟩,
    ⟨3, 101, 1, some (str "comentario"), .dat 0, some 2, some 1,
      some (str "v"), .dat 0, some (str "a"), some (str "x"),
      some (str "a"), some (str "x"), some 0⟩]

/-! ### Normalisation lemmas -/

theorem lowerCode_idem (n : Nat) : lowerCode (lowerCode n) = lowerCode n := by
  unfold lowerCode
  split
  · rename_i h
    rw [if_neg (by omega)]
  · rfl

theorem isSpace_lowerCode (n : Nat) :
    isSpaceCode (lowerCode n) = isSpaceCode n := by
  unfold lowerCode
  split
  · rename_i h
    have l1 : isSpaceCode (n + 32) = false := by simp [isSpaceCode]; omega
    have l2 : isSpaceCode n = false := by simp [isSpaceCode]; omega
    rw [l1, l2]
  · rfl

theorem lowerCodes_idem (s : List Nat) :
    lowerCodes (lowerCodes s) = lowerCodes s := by
  simp only [lowerCodes, List.map_map]
  exact List.map_congr_left (fun a _ => lowerCode_idem a)

theorem dropWhile_length_le' (p : Nat → Bool) (l : List Nat) :
    (l.dropWhile p).length ≤ l.length := by
  induction l with
  | nil => simp
  | cons a as ih =>
    rw [List.dropWhile_cons]
    split
    · simp
      omega
    · simp

theorem dropWhile_space_fix (u : List Nat)
    (h : u.dropWhile isSpaceCode = u) :
    (((u.reverse.dropWhile isSpaceCode).reverse).dropWhile isSpaceCode) =
      ((u.reverse.dropWhile isSpaceCode).reverse) := by
  cases u with
  | nil => simp
  | cons a as =>
    have ha : isSpaceCode a = false := by
      cases hha : isSpaceCode a with
      | false => rfl
      | true =>
        rw [List.dropWhile_cons, if_pos hha] at h
        have := congrArg List.length h
        have hle := dropWhile_length_le' isSpaceCode as
        simp at this
        omega
    have hone : List.dropWhile isSpaceCode [a] = [a] := by
      simp [List.dropWhile_cons, ha]
    rw [List.reverse_cons, List.dropWhile_append]
    split
    · rename_i hemp
      rw [hone]
      simp [List.dropWhile_cons, ha]
    · rename_i hemp
      rw [List.reverse_append]
      simp only [List.reverse_cons, List.reverse_nil, List.nil_append,
        List.singleton_append]
      simp [List.dropWhile_cons, ha]

theorem stripCodes_idem (s : List Nat) :
    stripCodes (stripCodes s) = stripCodes s := by
  unfold stripCodes
  have hfix : ((s.dropWhile isSpaceCode).reverse.dropWhile
      isSpaceCode).reverse.dropWhile isSpaceCode =
      ((s.dropWhile isSpaceCode).reverse.dropWhile isSpaceCode).reverse :=
    dropWhile_space_fix (s.dropWhile isSpaceCode)
      (List.dropWhile_idempotent isSpaceCode s)
  rw [hfix, List.reverse_reverse, List.dropWhile_idempotent]

theorem stripCodes_lowerCodes (s : List Nat) :
    stripCodes (lowerCodes s) = lowerCodes (stripCodes s) := by
  have hcomp : (isSpaceCode ∘ lowerCode) = isSpaceCode :=
    funext (fun n => isSpace_lowerCode n)
  unfold stripCodes lowerCodes
  rw [List.dropWhile_map, hcomp, ← List.map_reverse, List.dropWhile_map,
    hcomp, ← List.map_reverse]

theorem normalizeStr_idem (s : Option (List Nat)) :
    normalizeStr (normalizeStr s) = normalizeStr s := by
  cases s with
  | none => rfl
  | some t =>
    show some (lowerCodes (stripCodes (lowerCodes (stripCodes t)))) =
      some (lowerCodes (stripCodes t))
    rw [stripCodes_lowerCodes, stripCodes_idem, lowerCodes_idem]

theorem stripStr_idem (s : Option (List Nat)) :
    stripStr (stripStr s) = stripStr s := by
  cases s with
  | none => rfl
  | some t =>
    show some (stripCodes (stripCodes t)) = some (stripCodes t)
    rw [stripCodes_idem]

theorem toDatetime_idem (c : Cell) :
    c.toDatetime.toDatetime = c.toDatetime := by
  cases c with
  | na => rfl
  | dat d => rfl
  | txt s =>
    simp only [Cell.toDatetime]
    cases parseDate s <;> rfl

/-! ### Deduplication lemmas -/

theorem dedupBy_sublist {α : Type} (key : α → Int) (seen : List Int) :
    ∀ l : List α, (dedupBy key seen l).Sublist l := by
  intro l
  induction l generalizing seen with
  | nil => simp [dedupBy]
  | cons a as ih =>
    rw [dedupBy]
    split
    · exact (ih seen).cons a
    · exact (ih (key a :: seen)).cons₂ a

theorem mem_dedupBy {α : Type} {key : α → Int} {seen : List Int} {l : List α}
    {a : α} (h : a ∈ dedupBy key seen l) : a ∈ l ∧ key a ∉ seen := by
  induction l generalizing seen with
  | nil => simp [dedupBy] at h
  | cons b bs ih =>
    rw [dedupBy] at h
    split at h
    · have := ih h
      exact ⟨List.mem_cons_of_mem b this.1, this.2⟩
    · rename_i hb
      rcases List.mem_cons.mp h with rfl | h'
      · exact ⟨List.mem_cons_self _ _, hb⟩
      · have := ih h'
        refine ⟨List.mem_cons_of_mem b this.1, fun hc => this.2 ?_⟩
        exact List.mem_cons_of_mem _ hc

theorem dedupBy_keys_nodup {α : Type} (key : α → Int) (seen : List Int) :
    ∀ l : List α, ((dedupBy key seen l).map key).Nodup := by
  intro l
  induction l generalizing seen with
  | nil => simp [dedupBy]
  | cons a as ih =>
    rw [dedupBy]
    split
    · exact ih seen
    · rw [List.map_cons, List.nodup_cons]
      refine ⟨fun hc => ?_, ih (key a :: seen)⟩
      rcases List.mem_map.mp hc with ⟨b, hb, hkb⟩
      have := (mem_dedupBy hb).2
      exact this (by rw [hkb]; exact List.mem_cons_self _ _)

theorem dedupBy_eq_self {α : Type} (key : α → Int) (seen : List Int)
    (l : List α) (hseen : ∀ a ∈ l, key a ∉ seen) (hnd : (l.map key).Nodup) :
    dedupBy key seen l = l := by
  induction l generalizing seen with
  | nil => rfl
  | cons a as ih =>
    rw [dedupBy, if_neg (hseen a (List.mem_cons_self _ _))]
    congr 1
    rw [List.map_cons, List.nodup_cons] at hnd
    refine ih (key a :: seen) (fun b hb hc => ?_) hnd.2
    rcases List.mem_cons.mp hc with hba | hbseen
    · exact hnd.1 (hba ▸ List.mem_map_of_mem key hb)
    · exact hseen b (List.mem_cons_of_mem a hb) hbseen

theorem dedupBy_map {α : Type} (key : α → Int) (f : α → α)
    (hf : ∀ a, key (f a) = key a) (seen : List Int) (l : List α) :
    dedupBy key seen (l.map f) = (dedupBy key seen l).map f := by
  induction l generalizing seen with
  | nil => rfl
  | cons a as ih =>
    rw [List.map_cons, dedupBy, dedupBy, hf]
    split
    · exact ih seen
    · rw [List.map_cons, ih (key a :: seen)]

theorem dedupBy_find? {α : Type} (key : α → Int) (seen : List Int)
    (k : Int) (hk : k ∉ seen) (l : List α) :
    (dedupBy key seen l).find? (fun a => key a == k) =
      l.find? (fun a => key a == k) := by
  induction l generalizing seen with
  | nil => rfl
  | cons a as ih =>
    rw [dedupBy]
    split
    · rename_i hmem
      have hne : (key a == k) = false := by
        simp only [beq_eq_false_iff_ne, ne_eq]
        intro hc
        exact hk (hc ▸ hmem)
      rw [List.find?_cons, hne, ih seen hk]
    · rename_i hmem
      by_cases ha : (key a == k) = true
      · rw [List.find?_cons, ha, List.find?_cons, ha]
      · have ha' : (key a == k) = false := by
          cases hx : (key a == k) with
          | true => exact absurd hx ha
          | false => rfl
        rw [List.find?_cons, ha', List.find?_cons, ha']
        refine ih (key a :: seen) (fun hc => ?_)
        rcases List.mem_cons.mp hc with hck | hcs
        · exact ha (by simp [hck])
        · exact hk hcs

theorem key_mem_dedupBy {α : Type} (key : α → Int) (a : α) :
    ∀ (l : List α) (seen : List Int), a ∈ l → key a ∉ seen →
      key a ∈ (dedupBy key seen l).map key := by
  intro l
  induction l with
  | nil => intro seen ha _; simp at ha
  | cons b bs ih =>
    intro seen ha hs
    rw [dedupBy]
    split
    · rename_i hb
      rcases List.mem_cons.mp ha with rfl | ha'
      · exact absurd hb hs
      · exact ih seen ha' hs
    · rename_i hb
      rcases List.mem_cons.mp ha with rfl | ha'
      · rw [List.map_cons]
        exact List.mem_cons_self _ _
      · by_cases hab : key a = key b
        · rw [List.map_cons, hab]
          exact List.mem_cons_self _ _
        · rw [List.map_cons]
          refine List.mem_cons_of_mem _ (ih (key b :: seen) ha' ?_)
          intro hc
          rcases List.mem_cons.mp hc with h1 | h2
          · exact hab h1
          · exact hs h2

theorem dedupBy_length_keys {α : Type} (key : α → Int) :
    ∀ (seen : List Int) (l l' : List α),
      l.map key = l'.map key →
      (dedupBy key seen l).length = (dedupBy key seen l').length := by
  intro seen l
  induction l generalizing seen with
  | nil =>
    intro l' h
    cases l' with
    | nil => rfl
    | cons b bs => simp at h
  | cons a as ih =>
    intro l' h
    cases l' with
    | nil => simp at h
    | cons b bs =>
      simp only [List.map_cons, List.cons.injEq] at h
      rw [dedupBy, dedupBy, ← h.1]
      split
      · exact ih seen bs h.2
      · simp only [List.length_cons]
        rw [ih (key a :: seen) bs h.2]

/-! ### Cleaning lemmas -/

theorem map_fix {α : Type} (f : α → α) (l : List α)
    (h : ∀ x ∈ l, f x = x) : l.map f = l := by
  induction l with
  | nil => rfl
  | cons a as ih =>
    simp only [List.map_cons]
    rw [h a (List.mem_cons_self _ _), ih (fun x hx => h x (List.mem_cons_of_mem a hx))]

theorem userTransform_idem (r : Usuario) :
    userTransform (userTransform r) = userTransform r := by
  simp only [userTransform, stripStr_idem, normalizeStr_idem]

theorem userTransform_id (r : Usuario) :
    (userTransform r).usuario_id = r.usuario_id := rfl

theorem conteudoTransform_idem (r : Conteudo) :
    conteudoTransform (conteudoTransform r) = conteudoTransform r := by
  simp only [conteudoTransform, normalizeStr_idem, toDatetime_idem]

theorem interTransform_idem (r : Interacao) :
    interTransform (interTransform r) = interTransform r := by
  simp only [interTransform, normalizeStr_idem, toDatetime_idem]

theorem clean_usuarios_keys_nodup (df : List Usuario) :
    ((clean_usuarios df).map (·.usuario_id)).Nodup :=
  dedupBy_keys_nodup _ _ _

theorem clean_usuarios_idem (df : List Usuario) :
    clean_usuarios (clean_usuarios df) = clean_usuarios df := by
  unfold clean_usuarios
  rw [map_fix userTransform _ (fun a ha => by
    rcases List.mem_map.mp (mem_dedupBy ha).1 with ⟨r0, _, rfl⟩
    exact userTransform_idem r0)]
  exact dedupBy_eq_self _ _ _ (by simp) (dedupBy_keys_nodup _ _ _)

theorem mem_clean_conteudos {r : Conteudo} {df : List Conteudo}
    (h : r ∈ clean_conteudos df) :
    (∃ r0 ∈ df, r = conteudoTransform r0) ∧ r.data_publicacao.isDat := by
  unfold clean_conteudos at h
  have h1 := List.mem_of_mem_filter h
  have h2 := List.of_mem_filter h
  rcases List.mem_map.mp h1 with ⟨r0, hr0, hr⟩
  exact ⟨⟨r0, hr0, hr.symm⟩, h2⟩

theorem clean_conteudos_idem (df : List Conteudo) :
    clean_conteudos (clean_conteudos df) = clean_conteudos df := by
  conv_lhs => rw [clean_conteudos]
  rw [map_fix conteudoTransform _ (fun r hr => by
      rcases (mem_clean_conteudos hr).1 with ⟨r0, _, rfl⟩
      exact conteudoTransform_idem r0),
    List.filter_eq_self.mpr (fun r hr => (mem_clean_conteudos hr).2)]

theorem mem_clean_interacoes {r : Interacao} {df : List Interacao}
    (h : r ∈ clean_interacoes df) :
    (∃ r0 ∈ df, r = pesoAttach (interTransform r0)) ∧
      r.data_interacao.isDat ∧ roleValidTipo r.tipo_interacao := by
  unfold clean_interacoes at h
  rcases List.mem_map.mp h with ⟨x, hx, hr⟩
  have hvt := List.of_mem_filter hx
  have hx1 := List.mem_of_mem_filter hx
  have hvd := List.of_mem_filter hx1
  have hx2 := List.mem_of_mem_filter hx1
  rcases List.mem_map.mp hx2 with ⟨r0, hr0, hx3⟩
  subst hr
  subst hx3
  exact ⟨⟨r0, hr0, rfl⟩, hvd, hvt⟩

theorem pesoAttach_interTransform_fix {r : Interacao}
    (hfix : interTransform r = r) :
    interTransform (pesoAttach r) = pesoAttach r ∧
      pesoAttach (pesoAttach r) = pesoAttach r := by
  have h3 : normalizeStr r.tipo_interacao = r.tipo_interacao :=
    congrArg Interacao.tipo_interacao hfix
  have h4 : r.data_interacao.toDatetime = r.data_interacao :=
    congrArg Interacao.data_interacao hfix
  cases r with
  | mk iid cid uid tipo data peso =>
    simp only [interTransform, pesoAttach] at h3 h4 ⊢
    rw [h3, h4]
    simp

theorem clean_interacoes_idem (df : List Interacao) :
    clean_interacoes (clean_interacoes df) = clean_interacoes df := by
  conv_lhs => rw [clean_interacoes]
  have hfixall : ∀ r ∈ clean_interacoes df, interTransform r = r := by
    intro r hr
    rcases (mem_clean_interacoes hr).1 with ⟨r0, _, rfl⟩
    exact (pesoAttach_interTransform_fix (interTransform_idem r0)).1
  rw [map_fix interTransform _ hfixall,
    List.filter_eq_self.mpr (fun r hr => (mem_clean_interacoes hr).2.1),
    List.filter_eq_self.mpr (fun r hr => (mem_clean_interacoes hr).2.2),
    map_fix pesoAttach _ (fun r hr => by
      rcases (mem_clean_interacoes hr).1 with ⟨r0, _, rfl⟩
      exact (pesoAttach_interTransform_fix (interTransform_idem r0)).2)]

/-! ### Join lemmas -/

theorem eq_singleton_of_mem_len_le_one {α : Type} {l : List α} {x : α}
    (hx : x ∈ l) (hl : l.length ≤ 1) : l = [x] := by
  cases l with
  | nil => simp at hx
  | cons a as =>
    cases as with
    | nil =>
      rcases List.mem_singleton.mp hx with rfl
      rfl
    | cons b bs => simp at hl

theorem head?_filter_mem {α : Type} {p : α → Bool} {l : List α} {x : α}
    (h : (l.filter p).head? = some x) : x ∈ l ∧ p x := by
  have hx : x ∈ l.filter p := List.mem_of_mem_head? (by simp [h])
  exact ⟨List.mem_of_mem_filter hx, List.of_mem_filter hx⟩

theorem head?_filter_iff {α : Type} {p : α → Bool} {l : List α}
    (hle : (l.filter p).length ≤ 1) (x : α) :
    (l.filter p).head? = some x ↔ x ∈ l ∧ p x := by
  constructor
  · exact head?_filter_mem
  · rintro ⟨hx, hp⟩
    rw [eq_singleton_of_mem_len_le_one (List.mem_filter.mpr ⟨hx, hp⟩) hle]
    rfl

theorem head?_filter_none_iff {α : Type} {p : α → Bool} {l : List α} :
    (l.filter p).head? = none ↔ ∀ x ∈ l, ¬p x := by
  rw [List.head?_eq_none_iff, List.filter_eq_nil_iff]

theorem filter_len_le_one {α κ : Type} [DecidableEq κ] (key : α → κ)
    {l : List α} (hnd : (l.map key).Nodup) (k : κ) :
    (l.filter (fun a => k = key a)).length ≤ 1 := by
  induction l with
  | nil => simp
  | cons a as ih =>
    rw [List.map_cons, List.nodup_cons] at hnd
    rw [List.filter_cons]
    split
    · rename_i hk
      simp only [decide_eq_true_eq] at hk
      have hnil : as.filter (fun b => k = key b) = [] := by
        rw [List.filter_eq_nil_iff]
        intro b hb
        simp only [decide_eq_true_eq]
        intro hc
        exact hnd.1 (by rw [← hk, hc]; exact List.mem_map_of_mem key hb)
      rw [hnil]
      simp
    · exact (ih hnd.2).trans (by omega)

theorem mergeLeft_eq_map {α β γ : Type} (ls : List α) (rs : List β)
    (mt : α → β → Bool) (comb : α → Option β → γ)
    (h1 : ∀ a, (rs.filter (fun b => mt a b)).length ≤ 1) :
    mergeLeft ls rs mt comb =
      ls.map (fun a => comb a ((rs.filter (fun b => mt a b)).head?)) := by
  induction ls with
  | nil => rfl
  | cons a as ih =>
    rw [mergeLeft, List.flatMap_cons, ← mergeLeft, ih, List.map_cons]
    cases hf : rs.filter (fun b => mt a b) with
    | nil => simp [hf]
    | cons b bs =>
      have := h1 a
      rw [hf] at this
      have hbs : bs = [] := by
        cases bs with
        | nil => rfl
        | cons c cs => simp at this
      subst hbs
      simp [hf]

theorem usuarios_some_keys_nodup (us : List Usuario) :
    ((clean_usuarios us).map (fun a => some a.usuario_id)).Nodup := by
  have h := clean_usuarios_keys_nodup us
  have : (clean_usuarios us).map (fun a => some a.usuario_id) =
      ((clean_usuarios us).map (·.usuario_id)).map some := by
    rw [List.map_map]
    rfl
  rw [this]
  exact h.map (fun x y hxy => Option.some.inj hxy)

theorem buildCore_eq (us : List Usuario) (cs : List Conteudo)
    (is : List Interacao)
    (hC : ((clean_conteudos cs).map (·.conteudo_id)).Nodup) :
    buildCore us cs is =
      (((clean_interacoes is).map
        (enrichRow (clean_usuarios us) (clean_conteudos cs))).filter
          keepRow).map diaAttach := by
  unfold buildCore
  dsimp only
  rw [mergeLeft_eq_map _ _
      (fun i c => i.conteudo_id = c.conteudo_id) joinConteudo
      (fun i => filter_len_le_one Conteudo.conteudo_id hC i.conteudo_id),
    mergeLeft_eq_map _ _
      (fun m a => m.autor_id = some a.usuario_id) joinAutor
      (fun m => filter_len_le_one (fun a : Usuario => some a.usuario_id)
        (usuarios_some_keys_nodup us) m.autor_id),
    mergeLeft_eq_map _ _
      (fun m u => m.usuario_id = u.usuario_id) joinParticipante
      (fun m => filter_len_le_one Usuario.usuario_id
        (clean_usuarios_keys_nodup us) m.usuario_id),
    List.map_map, List.map_map]
  rfl

theorem keepRow_true_iff (r : EngRow) :
    keepRow r = true ↔
      (r.autor_nome.isSome = true ∧ r.usuario_nome.isSome = true ∧
        r.categoria.isSome = true ∧ r.data_publicacao.isDat = true) := by
  simp [keepRow, and_assoc]

theorem enrich_categoria (U : List Usuario) (C : List Conteudo)
    (i : Interacao) :
    (enrichRow U C i).categoria =
      ((C.filter (fun c => i.conteudo_id = c.conteudo_id)).head?).bind
        (·.categoria) := rfl

theorem enrich_dpub (U : List Usuario) (C : List Conteudo) (i : Interacao) :
    (enrichRow U C i).data_publicacao =
      (match (C.filter (fun c => i.conteudo_id = c.conteudo_id)).head? with
        | some c => c.data_publicacao
        | none => Cell.na) := rfl

theorem enrich_autor_nome (U : List Usuario) (C : List Conteudo)
    (i : Interacao) :
    (enrichRow U C i).autor_nome =
      ((U.filter (fun a =>
        ((C.filter (fun c => i.conteudo_id = c.conteudo_id)).head?).map
          (·.autor_id) = some a.usuario_id)).head?).bind (·.nome) := rfl

theorem enrich_usuario_nome (U : List Usuario) (C : List Conteudo)
    (i : Interacao) :
    (enrichRow U C i).usuario_nome =
      ((U.filter (fun u => i.usuario_id = u.usuario_id)).head?).bind
        (·.nome) := rfl

theorem keepRow_enrich_iff (U : List Usuario) (C : List Conteudo)
    (hC : (C.map (·.conteudo_id)).Nodup)
    (hU : (U.map (·.usuario_id)).Nodup) (i : Interacao) :
    keepRow (enrichRow U C i) = true ↔ resolves U C i := by
  have hCle := fun k => filter_len_le_one Conteudo.conteudo_id hC k
  have hUle := fun k => filter_len_le_one Usuario.usuario_id hU k
  have hUle' := fun k => filter_len_le_one
    (fun a : Usuario => some a.usuario_id)
    ((by
      have : U.map (fun a => some a.usuario_id) =
          (U.map (·.usuario_id)).map some := by
        rw [List.map_map]; rfl
      rw [this]
      exact hU.map (fun x y hxy => Option.some.inj hxy)) :
        (U.map (fun a => some a.usuario_id)).Nodup) k
  rw [keepRow_true_iff, enrich_autor_nome, enrich_usuario_nome,
    enrich_categoria, enrich_dpub]
  constructor
  · rintro ⟨hA, hU', hcat, hdat⟩
    cases hc : (C.filter (fun c => i.conteudo_id = c.conteudo_id)).head? with
    | none =>
      rw [hc] at hcat
      simp at hcat
    | some c =>
      rw [hc] at hA hcat hdat
      have hcm := head?_filter_mem hc
      have hkey : i.conteudo_id = c.conteudo_id := by simpa using hcm.2
      rw [show Option.map (fun x => x.autor_id) (some c) =
        some c.autor_id from rfl] at hA
      have hcat' : c.categoria.isSome = true := by simpa using hcat
      have hdat' : c.data_publicacao.isDat = true := by simpa using hdat
      cases ha : (U.filter
          (fun a => some c.autor_id = some a.usuario_id)).head? with
      | none =>
        rw [ha] at hA
        simp at hA
      | some a =>
        rw [ha] at hA
        have ham := head?_filter_mem ha
        have haid : a.usuario_id = c.autor_id := by
          have := ham.2
          simp only [decide_eq_true_eq, Option.some_inj] at this
          exact this.symm
        cases hu : (U.filter
            (fun u => i.usuario_id = u.usuario_id)).head? with
        | none =>
          rw [hu] at hU'
          simp at hU'
        | some u =>
          rw [hu] at hU'
          have hum := head?_filter_mem hu
          have huid : i.usuario_id = u.usuario_id := by simpa using hum.2
          exact ⟨⟨c, hcm.1, hkey, hcat', hdat', a, ham.1, haid,
            by simpa using hA⟩, u, hum.1, huid, by simpa using hU'⟩
  · rintro ⟨⟨c, hcC, hkey, hcat, hdat, a, haU, haid, hanome⟩,
      u, huU, huid, hunome⟩
    have hc : (C.filter (fun x => i.conteudo_id = x.conteudo_id)).head? =
        some c :=
      (head?_filter_iff (hCle i.conteudo_id) c).mpr ⟨hcC, by simp [hkey]⟩
    have ha : (U.filter
        (fun x => some c.autor_id = some x.usuario_id)).head? = some a :=
      (head?_filter_iff (hUle' (some c.autor_id)) a).mpr
        ⟨haU, by simp [haid]⟩
    have hu : (U.filter
        (fun x => i.usuario_id = x.usuario_id)).head? = some u :=
      (head?_filter_iff (hUle i.usuario_id) u).mpr ⟨huU, by simp [huid]⟩
    rw [hc, show Option.map (fun x => x.autor_id) (some c) =
      some c.autor_id from rfl, ha, hu]
    exact ⟨by simpa using hanome, by simpa using hunome,
      by simpa using hcat, by simpa using hdat⟩

theorem unified_count (us : List Usuario) (cs : List Conteudo)
    (is : List Interacao)
    (hC : ((clean_conteudos cs).map (·.conteudo_id)).Nodup) :
    (buildCore us cs is).length ≤ (clean_interacoes is).length ∧
      ((buildCore us cs is).length = (clean_interacoes is).length ↔
        ∀ i ∈ clean_interacoes is,
          resolves (clean_usuarios us) (clean_conteudos cs) i) := by
  rw [buildCore_eq us cs is hC, List.length_map,
    ← List.countP_eq_length_filter, List.countP_map]
  constructor
  · exact List.countP_le_length _
  · rw [List.countP_eq_length]
    constructor
    · intro h i hi
      exact (keepRow_enrich_iff _ _ hC (clean_usuarios_keys_nodup us) i).mp
        (h i hi)
    · intro h i hi
      exact (keepRow_enrich_iff _ _ hC (clean_usuarios_keys_nodup us) i).mpr
        (h i hi)

/-! ### Minimum/maximum and timeline lemmas -/

theorem listMin_le {l : List Int} {m : Int} (h : listMin l = some m) :
    ∀ x ∈ l, m ≤ x := by
  induction l generalizing m with
  | nil => simp [listMin] at h
  | cons a as ih =>
    rw [listMin] at h
    cases has : listMin as with
    | none =>
      rw [has] at h
      have ha : m = a := by
        have := Option.some.inj h
        simpa using this.symm
      subst ha
      intro x hx
      rcases List.mem_cons.mp hx with rfl | hx'
      · exact le_refl _
      · cases as with
        | nil => simp at hx'
        | cons b bs => rw [listMin] at has; simp at has
    | some m' =>
      rw [has] at h
      have hm : m = min a m' := by
        have := Option.some.inj h
        simpa using this.symm
      subst hm
      intro x hx
      rcases List.mem_cons.mp hx with rfl | hx'
      · exact min_le_left _ _
      · exact le_trans (min_le_right _ _) (ih has x hx')

theorem listMin_mem {l : List Int} {m : Int} (h : listMin l = some m) :
    m ∈ l := by
  induction l generalizing m with
  | nil => simp [listMin] at h
  | cons a as ih =>
    rw [listMin] at h
    cases has : listMin as with
    | none =>
      rw [has] at h
      have ha : m = a := by simpa using (Option.some.inj h).symm
      subst ha
      exact List.mem_cons_self _ _
    | some m' =>
      rw [has] at h
      have hm : m = min a m' := by simpa using (Option.some.inj h).symm
      subst hm
      rcases le_total a m' with hle | hle
      · rw [min_eq_left hle]
        exact List.mem_cons_self _ _
      · rw [min_eq_right hle]
        exact List.mem_cons_of_mem a (ih has)

theorem listMax_ge {l : List Int} {m : Int} (h : listMax l = some m) :
    ∀ x ∈ l, x ≤ m := by
  induction l generalizing m with
  | nil => simp [listMax] at h
  | cons a as ih =>
    rw [listMax] at h
    cases has : listMax as with
    | none =>
      rw [has] at h
      have ha : m = a := by simpa using (Option.some.inj h).symm
      subst ha
      intro x hx
      rcases List.mem_cons.mp hx with rfl | hx'
      · exact le_refl _
      · cases as with
        | nil => simp at hx'
        | cons b bs => rw [listMax] at has; simp at has
    | some m' =>
      rw [has] at h
      have hm : m = max a m' := by simpa using (Option.some.inj h).symm
      subst hm
      intro x hx
      rcases List.mem_cons.mp hx with rfl | hx'
      · exact le_max_left _ _
      · exact le_trans (ih has x hx') (le_max_right _ _)

theorem listMax_mem {l : List Int} {m : Int} (h : listMax l = some m) :
    m ∈ l := by
  induction l generalizing m with
  | nil => simp [listMax] at h
  | cons a as ih =>
    rw [listMax] at h
    cases has : listMax as with
    | none =>
      rw [has] at h
      have ha : m = a := by simpa using (Option.some.inj h).symm
      subst ha
      exact List.mem_cons_self _ _
    | some m' =>
      rw [has] at h
      have hm : m = max a m' := by simpa using (Option.some.inj h).symm
      subst hm
      rcases le_total a m' with hle | hle
      · rw [max_eq_right hle]
        exact List.mem_cons_of_mem a (ih has)
      · rw [max_eq_left hle]
        exact List.mem_cons_self _ _

theorem listMin_cons_isSome (a : Int) (l : List Int) :
    (listMin (a :: l)).isSome = true := by
  rw [listMin]
  rfl

theorem listMax_cons_isSome (a : Int) (l : List Int) :
    (listMax (a :: l)).isSome = true := by
  rw [listMax]
  rfl

theorem length_filterMap_of_isSome {α β : Type} (f : α → Option β)
    (l : List α) (h : ∀ a ∈ l, (f a).isSome = true) :
    (l.filterMap f).length = l.length := by
  induction l with
  | nil => rfl
  | cons a as ih =>
    rw [List.filterMap_cons]
    cases hf : f a with
    | none =>
      have := h a (List.mem_cons_self _ _)
      rw [hf] at this
      simp at this
    | some b =>
      simp only [List.length_cons]
      rw [ih (fun x hx => h x (List.mem_cons_of_mem a hx))]

/-! ### Distinct-value lemmas -/

theorem mem_dedupFirst {α : Type} [DecidableEq α] {l : List α} {x : α} :
    x ∈ dedupFirst l ↔ x ∈ l := by
  induction l with
  | nil => simp [dedupFirst]
  | cons a as ih =>
    rw [dedupFirst]
    constructor
    · intro h
      rcases List.mem_cons.mp h with rfl | h'
      · exact List.mem_cons_self _ _
      · exact List.mem_cons_of_mem a (ih.mp (List.mem_of_mem_filter h'))
    · intro h
      rcases List.mem_cons.mp h with rfl | h'
      · exact List.mem_cons_self _ _
      · by_cases hxa : x = a
        · subst hxa
          exact List.mem_cons_self _ _
        · refine List.mem_cons_of_mem a (List.mem_filter.mpr ⟨ih.mpr h', ?_⟩)
          simp [hxa]

theorem dedupFirst_nodup {α : Type} [DecidableEq α] (l : List α) :
    (dedupFirst l).Nodup := by
  induction l with
  | nil => simp [dedupFirst]
  | cons a as ih =>
    rw [dedupFirst, List.nodup_cons]
    constructor
    · intro hc
      have := List.of_mem_filter hc
      simp at this
    · exact ih.filter _

theorem perm_cons_filter_ne {α : Type} [DecidableEq α] {l : List α} {a : α}
    (hnd : l.Nodup) (ha : a ∈ l) :
    l.Perm (a :: l.filter (fun b => b ≠ a)) := by
  induction l with
  | nil => simp at ha
  | cons b bs ih =>
    rw [List.nodup_cons] at hnd
    rcases List.mem_cons.mp ha with rfl | ha'
    · have hfil : bs.filter (fun x => x ≠ a) = bs :=
        List.filter_eq_self.mpr (fun x hx => by
          simp only [ne_eq, decide_not, Bool.not_eq_true',
            decide_eq_false_iff_not]
          intro hc
          exact hnd.1 (hc ▸ hx))
      rw [List.filter_cons]
      have hcond : (decide (a ≠ a)) = false := by simp
      rw [hcond]
      simp only [if_false, Bool.false_eq_true]
      rw [hfil]
    · have hperm := ih hnd.2 ha'
      have hb : (decide (b ≠ a)) = true := by
        simp only [ne_eq, decide_eq_true_eq]
        intro hc
        exact hnd.1 (hc ▸ ha')
      have h1 : (b :: bs).Perm (b :: a :: bs.filter (fun x => x ≠ a)) :=
        hperm.cons b
      have h2 : (b :: a :: bs.filter (fun x => x ≠ a)).Perm
          (a :: b :: bs.filter (fun x => x ≠ a)) :=
        List.Perm.swap a b _
      have h3 : a :: (b :: bs).filter (fun x => x ≠ a) =
          a :: b :: bs.filter (fun x => x ≠ a) := by
        rw [List.filter_cons, hb]
        simp
      rw [h3]
      exact h1.trans h2

theorem sum_count_dedupFirst (l : List (List Nat)) :
    ((dedupFirst l).map (fun x => l.count x)).sum = l.length := by
  induction l with
  | nil => rfl
  | cons a as ih =>
    rw [dedupFirst, List.map_cons, List.sum_cons]
    have hcnt : ∀ x, x ≠ a → (a :: as).count x = as.count x := by
      intro x hx
      rw [List.count_cons]
      simp [hx.symm]
    have hmapeq : ((dedupFirst as).filter (fun b => b ≠ a)).map
        (fun x => (a :: as).count x) =
        ((dedupFirst as).filter (fun b => b ≠ a)).map
          (fun x => as.count x) := by
      refine List.map_congr_left (fun x hx => ?_)
      have := List.of_mem_filter hx
      simp only [ne_eq, decide_not, Bool.not_eq_true', decide_eq_false_iff_not] at this
      exact hcnt x this
    rw [hmapeq, List.count_cons_self]
    by_cases ha : a ∈ as
    · have hmem : a ∈ dedupFirst as := mem_dedupFirst.mpr ha
      have hperm := perm_cons_filter_ne (dedupFirst_nodup as) hmem
      have hsum := (hperm.map (fun x => as.count x)).sum_eq
      rw [List.map_cons, List.sum_cons] at hsum
      simp only [List.length_cons]
      omega
    · have hcnt0 : as.count a = 0 := List.count_eq_zero.mpr ha
      have hfeq : (dedupFirst as).filter (fun b => b ≠ a) = dedupFirst as := by
        rw [List.filter_eq_self]
        intro b hb
        have : b ∈ as := mem_dedupFirst.mp hb
        simp only [ne_eq, decide_not, Bool.not_eq_true', decide_eq_false_iff_not]
        intro hc
        exact ha (hc ▸ this)
      rw [hfeq, ih]
      simp only [List.length_cons]
      omega

/-! ### Order lemmas for the sorting relations -/

theorem codesLe_refl : ∀ a : List Nat, codesLe a a = true := by
  intro a
  induction a with
  | nil => rfl
  | cons x xs ih => simp [codesLe, ih]

theorem codesLe_total : ∀ a b : List Nat,
    codesLe a b = true ∨ codesLe b a = true := by
  intro a
  induction a with
  | nil => intro b; left; rfl
  | cons x xs ih =>
    intro b
    cases b with
    | nil => right; rfl
    | cons y ys =>
      rcases Nat.lt_trichotomy x y with h | h | h
      · left
        simp [codesLe, h]
      · subst h
        rcases ih ys with h' | h'
        · left
          simp [codesLe, h']
        · right
          simp [codesLe, h']
      · right
        simp [codesLe, h]

theorem codesLe_trans : ∀ a b c : List Nat,
    codesLe a b = true → codesLe b c = true → codesLe a c = true := by
  intro a
  induction a with
  | nil => intro b c _ _; rfl
  | cons x xs ih =>
    intro b c hab hbc
    cases b with
    | nil => simp [codesLe] at hab
    | cons y ys =>
      cases c with
      | nil => simp [codesLe] at hbc
      | cons z zs =>
        simp only [codesLe, Bool.or_eq_true, Bool.and_eq_true,
          decide_eq_true_eq] at hab hbc ⊢
        rcases hab with hxy | ⟨hxy, hxs⟩
        · rcases hbc with hyz | ⟨hyz, hys⟩
          · exact Or.inl (Nat.lt_trans hxy hyz)
          · exact Or.inl (hyz ▸ hxy)
        · rcases hbc with hyz | ⟨hyz, hys⟩
          · exact Or.inl (hxy ▸ hyz)
          · exact Or.inr ⟨hxy.trans hyz, ih ys zs hxs hys⟩

instance : IsTotal (List Nat) catKeyLe :=
  ⟨fun a b => codesLe_total a b⟩

instance : IsTrans (List Nat) catKeyLe :=
  ⟨fun a b c => codesLe_trans a b c⟩

instance : IsTotal (Int × List Nat) authorKeyLe := by
  constructor
  intro p q
  rcases Int.lt_trichotomy p.1 q.1 with h | h | h
  · exact Or.inl (Or.inl h)
  · rcases codesLe_total p.2 q.2 with h' | h'
    · exact Or.inl (Or.inr ⟨h, h'⟩)
    · exact Or.inr (Or.inr ⟨h.symm, h'⟩)
  · exact Or.inr (Or.inl h)

instance : IsTrans (Int × List Nat) authorKeyLe := by
  constructor
  intro p q r hpq hqr
  rcases hpq with h1 | ⟨h1, h1'⟩
  · rcases hqr with h2 | ⟨h2, h2'⟩
    · exact Or.inl (h1.trans h2)
    · exact Or.inl (h2 ▸ h1)
  · rcases hqr with h2 | ⟨h2, h2'⟩
    · exact Or.inl (h1 ▸ h2)
    · exact Or.inr ⟨h1.trans h2, codesLe_trans _ _ _ h1' h2'⟩

instance : IsTotal RankRow rankGe :=
  ⟨fun a b => le_total b.score_engajamento a.score_engajamento⟩

instance : IsTrans RankRow rankGe :=
  ⟨fun _ _ _ hab hbc => le_trans hbc hab⟩

instance : IsTotal CatRow catGe :=
  ⟨fun a b => le_total b.score a.score⟩

instance : IsTrans CatRow catGe :=
  ⟨fun _ _ _ hab hbc => le_trans hbc hab⟩

instance : IsTotal TipoRow tipoGe :=
  ⟨fun a b => le_total b.quantidade a.quantidade⟩

instance : IsTrans TipoRow tipoGe :=
  ⟨fun _ _ _ hab hbc => le_trans hbc hab⟩

/-- Stability of the descending score sort at the level of one insertion:
filtering an `orderedInsert` on an exact score keeps the relative order. -/
theorem filter_score_orderedInsert (s : Int) (a : RankRow) :
    ∀ m : List RankRow,
      (List.orderedInsert rankGe a m).filter
        (fun x => x.score_engajamento = s) =
      if a.score_engajamento = s then
        a :: m.filter (fun x => x.score_engajamento = s)
      else m.filter (fun x => x.score_engajamento = s) := by
  intro m
  induction m with
  | nil =>
    rw [List.orderedInsert]
    by_cases has : a.score_engajamento = s
    · rw [if_pos has]
      simp [List.filter_cons, has]
    · rw [if_neg has]
      simp [List.filter_cons, has]
  | cons b bs ih =>
    rw [List.orderedInsert]
    split
    · rename_i hab
      by_cases has : a.score_engajamento = s
      · rw [if_pos has]
        simp [List.filter_cons, has]
      · rw [if_neg has]
        simp [List.filter_cons, has]
    · rename_i hab
      have hlt : a.score_engajamento < b.score_engajamento := by
        rw [rankGe] at hab
        omega
      rw [List.filter_cons, List.filter_cons, ih]
      by_cases has : a.score_engajamento = s
      · have hbs : ¬(b.score_engajamento = s) := by omega
        simp [has, hbs]
      · simp [has]

/-- Stability of `sort_values(ascending=False)`: rows with any given score
keep the order they had before sorting. -/
theorem filter_score_insertionSort (s : Int) :
    ∀ l : List RankRow,
      (List.insertionSort rankGe l).filter
        (fun x => x.score_engajamento = s) =
      l.filter (fun x => x.score_engajamento = s) := by
  intro l
  induction l with
  | nil => rfl
  | cons a as ih =>
    rw [List.insertionSort, filter_score_orderedInsert, List.filter_cons]
    by_cases has : a.score_engajamento = s
    · rw [if_pos has, ih]
      simp [has]
    · rw [if_neg has, ih]
      simp [has]

/-! ### Rounding lemmas -/

theorem roundHE_close (q : ℚ) : |(roundHE q : ℚ) - q| ≤ 1 / 2 := by
  unfold roundHE
  dsimp only
  have h1 : ((⌊q⌋ : ℤ) : ℚ) ≤ q := Int.floor_le q
  have h2 : q < (⌊q⌋ : ℚ) + 1 := Int.lt_floor_add_one q
  split_ifs with ha hb hc
  · rw [abs_le]
    constructor <;> linarith
  · rw [abs_le]
    push_cast
    constructor <;> linarith
  · have hq : q - (⌊q⌋ : ℚ) = 1 / 2 := by linarith
    rw [abs_le]
    constructor <;> linarith
  · have hq : q - (⌊q⌋ : ℚ) = 1 / 2 := by linarith
    rw [abs_le]
    push_cast
    constructor <;> linarith

theorem round2_close (q : ℚ) : |round2 q - q| ≤ 1 / 200 := by
  unfold round2
  have h := roundHE_close (q * 100)
  have heq : (roundHE (q * 100) : ℚ) / 100 - q =
      ((roundHE (q * 100) : ℚ) - q * 100) / 100 := by ring
  rw [heq, abs_div]
  have h100 : |(100 : ℚ)| = 100 := by norm_num
  rw [h100]
  linarith

theorem sum_round2_close : ∀ l : List ℚ,
    |(l.map round2).sum - l.sum| ≤ (l.length : ℚ) * (1 / 200) := by
  intro l
  induction l with
  | nil => simp
  | cons a as ih =>
    rw [List.map_cons, List.sum_cons, List.sum_cons, List.length_cons]
    have step : round2 a + (as.map round2).sum - (a + as.sum) =
        (round2 a - a) + ((as.map round2).sum - as.sum) := by ring
    rw [step]
    have habs := abs_add (round2 a - a) ((as.map round2).sum - as.sum)
    have h1 := round2_close a
    push_cast
    linarith

theorem sum_map_div {κ : Type} (l : List κ) (g : κ → ℚ) (d : ℚ) :
    (l.map (fun x => g x / d)).sum = (l.map g).sum / d := by
  induction l with
  | nil => simp
  | cons a as ih =>
    rw [List.map_cons, List.map_cons, List.sum_cons, List.sum_cons, ih,
      add_div]

theorem sum_map_castmul {κ : Type} (l : List κ) (g : κ → Nat) (c : ℚ) :
    (l.map (fun x => (g x : ℚ) * c)).sum = ((l.map g).sum : ℚ) * c := by
  induction l with
  | nil => simp
  | cons a as ih =>
    rw [List.map_cons, List.map_cons, List.sum_cons, List.sum_cons, ih]
    push_cast
    ring

/-! ### Claim theorems -/

/-- C6: `build_engagement_dataset` fails precisely when a required collection
(users, content, interactions) is entirely absent from its input map, the
failure names the missing collection, and with all three present it always
returns a result — data-quality issues never raise. -/
theorem C6_build_fails_iff_missing_collection (d : RawDatasets) :
    ((build_engagement_dataset d).isOk = true ↔
      (d.usuarios.isSome = true ∧ d.conteudos.isSome = true ∧
        d.interacoes.isSome = true)) ∧
    (∀ e, build_engagement_dataset d = .error e →
      ((e = str "usuarios" ∧ d.usuarios = none) ∨
        (e = str "conteudos" ∧ d.conteudos = none) ∨
        (e = str "interacoes" ∧ d.interacoes = none))) ∧
    (∀ us cs is, d.usuarios = some us → d.conteudos = some cs →
      d.interacoes = some is →
      build_engagement_dataset d = .ok (buildCore us cs is)) := by
  rcases d with ⟨u, c, i⟩
  cases u <;> cases c <;> cases i <;>
    simp [build_engagement_dataset, Except.isOk, Except.toBool]

/-- C6 witness: with the `usuarios` collection absent, the builder reports
exactly the missing collection. -/
theorem C6_build_fails_iff_missing_collection_witness :
    (str "usuarios" = str "usuarios" ∧
      (RawDatasets.mk none (some []) (some [])).usuarios = none) ∨
    (str "usuarios" = str "conteudos" ∧
      (RawDatasets.mk none (some []) (some [])).conteudos = none) ∨
    (str "usuarios" = str "interacoes" ∧
      (RawDatasets.mk none (some []) (some [])).interacoes = none) :=
  (C6_build_fails_iff_missing_collection
    (RawDatasets.mk none (some []) (some []))).2.1 (str "usuarios") rfl

/-- C7: each of the five Metrics Engine functions returns its zero result on
the empty Unified Engagement Record collection (zero counts and 0.0 average;
empty ranking, category, timeline and distribution tables). -/
theorem C7_metrics_empty_input :
    global_engagement_metrics [] =
      { total_interacoes := 0
        conteudos_analisados := 0
        usuarios_participantes := 0
        engajamento_medio_por_conteudo := 0 } ∧
    top_autores_por_engajamento [] = [] ∧
    interacoes_por_categoria [] = [] ∧
    timeline_engajamento [] = [] ∧
    distribuicao_tipo_interacao [] = [] :=
  ⟨rfl, rfl, rfl, rfl, rfl⟩

/-- C8: the three cleaning functions are idempotent — cleaning an
already-cleaned collection returns it unchanged. -/
theorem C8_cleaning_idempotent (us : List Usuario) (cs : List Conteudo)
    (is : List Interacao) :
    clean_usuarios (clean_usuarios us) = clean_usuarios us ∧
    clean_conteudos (clean_conteudos cs) = clean_conteudos cs ∧
    clean_interacoes (clean_interacoes is) = clean_interacoes is :=
  ⟨clean_usuarios_idem us, clean_conteudos_idem cs, clean_interacoes_idem is⟩

/-- C9: `clean_usuarios` trims `nome`, normalizes `segmento` (trim and
lower-case), keeps exactly the first occurrence of each `usuario_id`
(later duplicates discarded), and survivors keep their first-seen relative
order. -/
theorem C9_clean_usuarios_spec (df : List Usuario) :
    (clean_usuarios df).Sublist (df.map userTransform) ∧
    ((clean_usuarios df).map (·.usuario_id)).Nodup ∧
    (∀ k : Int, (clean_usuarios df).find? (fun r => r.usuario_id == k) =
      (df.find? (fun r => r.usuario_id == k)).map userTransform) ∧
    (∀ r ∈ df, ∃ r' ∈ clean_usuarios df, r'.usuario_id = r.usuario_id) ∧
    (∀ r : Usuario, (userTransform r).nome = stripStr r.nome ∧
      (userTransform r).segmento = normalizeStr r.segmento ∧
      (userTransform r).usuario_id = r.usuario_id) := by
  refine ⟨?_, clean_usuarios_keys_nodup df, ?_, ?_, fun r => ⟨rfl, rfl, rfl⟩⟩
  · exact (dedupBy_sublist _ _ _)
  · intro k
    unfold clean_usuarios
    rw [dedupBy_find? _ _ k (by simp), List.find?_map]
    rfl
  · intro r hr
    have hmem : (userTransform r).usuario_id ∈
        (clean_usuarios df).map (·.usuario_id) := by
      unfold clean_usuarios
      exact key_mem_dedupBy (·.usuario_id) (userTransform r)
        (df.map userTransform) [] (List.mem_map_of_mem userTransform hr)
        (by simp)
    rcases List.mem_map.mp hmem with ⟨r', hr', hid⟩
    exact ⟨r', hr', hid⟩

/-- C9 witness: the first-occurrence row for id 1 is kept, trimmed and
normalized, in a collection with a duplicate id. -/
theorem C9_clean_usuarios_spec_witness :
    (clean_usuarios
      [⟨1, some (str " Ana "), some (str " VIP ")⟩,
        ⟨1, some (str "Dup"), some (str "dup")⟩]).find?
          (fun r => r.usuario_id == 1) =
      (([⟨1, some (str " Ana "), some (str " VIP ")⟩,
        ⟨1, some (str "Dup"), some (str "dup")⟩] : List Usuario).find?
          (fun r => r.usuario_id == 1)).map userTransform :=
  (C9_clean_usuarios_spec _).2.2.1 1

/-- C10: the builder cleans its inputs internally — feeding already-cleaned
collections produces exactly the same unified dataset as feeding the raw
ones — and cleaning never drops a user row for a missing or empty name or
segment (survival depends only on ids); rows with unresolved names are
removed only by the post-join missing-field filter. -/
theorem C10_builder_cleans_internally (us : List Usuario)
    (cs : List Conteudo) (is : List Interacao) :
    build_engagement_dataset
      ⟨some (clean_usuarios us), some (clean_conteudos cs),
        some (clean_interacoes is)⟩ =
      build_engagement_dataset ⟨some us, some cs, some is⟩ ∧
    (∀ r ∈ us, r.usuario_id ∈ (clean_usuarios us).map (·.usuario_id)) ∧
    (∀ us' : List Usuario, us.map (·.usuario_id) = us'.map (·.usuario_id) →
      (clean_usuarios us).length = (clean_usuarios us').length) ∧
    (∀ r ∈ buildCore us cs is,
      r.autor_nome.isSome = true ∧ r.usuario_nome.isSome = true) := by
  refine ⟨?_, ?_, ?_, ?_⟩
  · show Except.ok (buildCore (clean_usuarios us) (clean_conteudos cs)
      (clean_interacoes is)) =
        Except.ok (buildCore us cs is)
    have hcore : buildCore (clean_usuarios us) (clean_conteudos cs)
        (clean_interacoes is) = buildCore us cs is := by
      unfold buildCore
      rw [clean_usuarios_idem, clean_conteudos_idem, clean_interacoes_idem]
    rw [hcore]
  · intro r hr
    have : (userTransform r).usuario_id ∈
        (clean_usuarios us).map (·.usuario_id) := by
      unfold clean_usuarios
      exact key_mem_dedupBy (·.usuario_id) (userTransform r)
        (us.map userTransform) [] (List.mem_map_of_mem userTransform hr)
        (by simp)
    exact this
  · intro us' hids
    unfold clean_usuarios
    refine dedupBy_length_keys _ [] _ _ ?_
    have h1 : (us.map userTransform).map (·.usuario_id) =
        us.map (·.usuario_id) := by
      rw [List.map_map]
      rfl
    have h2 : (us'.map userTransform).map (·.usuario_id) =
        us'.map (·.usuario_id) := by
      rw [List.map_map]
      rfl
    rw [h1, h2, hids]
  · intro r hr
    unfold buildCore at hr
    dsimp only at hr
    rcases List.mem_map.mp hr with ⟨x, hx, hrx⟩
    have hkeep := List.of_mem_filter hx
    rw [keepRow_true_iff] at hkeep
    subst hrx
    exact ⟨hkeep.1, hkeep.2.1⟩

/-- C10 witness: a user row whose name and segment are entirely missing
still survives cleaning (its id remains present). -/
theorem C10_builder_cleans_internally_witness :
    (1 : Int) ∈ (clean_usuarios [⟨1, none, none⟩]).map (·.usuario_id) :=
  (C10_builder_cleans_internally [⟨1, none, none⟩] [] []).2.1
    ⟨1, none, none⟩ (List.mem_cons_self _ _)

/-- C1 counterexample: content ids are not deduplicated by cleaning, so an
interaction matching a duplicated `conteudo_id` is multiplied by the left
join and the unified dataset can be strictly larger than the cleaned
interaction collection. -/
theorem C1_row_multiplication_counterexample :
    ¬ ((buildCore
        [⟨1, some (str "a"), some (str "x")⟩]
        [⟨101, 1, some (str "v"), .txt (str "2025-10-01")⟩,
          ⟨101, 1, some (str "v"), .txt (str "2025-10-01")⟩]
        [⟨1, 101, 1, some (str "curtida"), .txt (str "2025-10-01"),
          none⟩]).length ≤
      (clean_interacoes
        [⟨1, 101, 1, some (str "curtida"), .txt (str "2025-10-01"),
          none⟩]).length) := by
  decide

/-- C1 (amended): when the cleaned content collection has no duplicate
`conteudo_id`, the unified dataset the builder returns is no larger than the
cleaned interaction collection, with equality exactly when every cleaned
interaction resolves its content (with category and publish date present),
that content's author (with a name), and its participant (with a name). -/
theorem C1_unified_count_bounded (us : List Usuario) (cs : List Conteudo)
    (is : List Interacao) (df : List EngRow)
    (hC : ((clean_conteudos cs).map (·.conteudo_id)).Nodup)
    (hok : build_engagement_dataset ⟨some us, some cs, some is⟩ = .ok df) :
    df.length ≤ (clean_interacoes is).length ∧
      (df.length = (clean_interacoes is).length ↔
        ∀ i ∈ clean_interacoes is,
          resolves (clean_usuarios us) (clean_conteudos cs) i) := by
  have hdf : df = buildCore us cs is := by
    have : build_engagement_dataset ⟨some us, some cs, some is⟩ =
        .ok (buildCore us cs is) := rfl
    rw [this] at hok
    exact (Except.ok.inj hok).symm
  subst hdf
  exact unified_count us cs is hC

/-- C1 witness: on a small fully-resolving input with unique content ids the
bound holds. -/
theorem C1_unified_count_bounded_witness :
    ((clean_conteudos
      [⟨101, 1, some (str "v"), .txt (str "2025-10-01")⟩]).map
        (·.conteudo_id)).Nodup ∧
    (buildCore
      [⟨1, some (str "a"), some (str "x")⟩]
      [⟨101, 1, some (str "v"), .txt (str "2025-10-01")⟩]
      [⟨1, 101, 1, some (str "curtida"), .txt (str "2025-10-01"),
        none⟩]).length ≤
      (clean_interacoes
        [⟨1, 101, 1, some (str "curtida"), .txt (str "2025-10-01"),
          none⟩]).length :=
  ⟨by decide,
    (C1_unified_count_bounded
      [⟨1, some (str "a"), some (str "x")⟩]
      [⟨101, 1, some (str "v"), .txt (str "2025-10-01")⟩]
      [⟨1, 101, 1, some (str "curtida"), .txt (str "2025-10-01"), none⟩]
      _ (by decide) rfl).1⟩

/-- C2: every interaction row surviving cleaning carries
`peso_interacao = INTERACTION_WEIGHTS[tipo_interacao]` with its normalized
type a key of the fixed table (curtida=1, comentario=2, compartilhamento=3);
rows with unknown types or unparseable dates are dropped and the survivors
keep their original relative order. -/
theorem C2_weights_match_table (df : List Interacao) :
    (∀ r ∈ clean_interacoes df, ∃ t w, r.tipo_interacao = some t ∧
      weightLookup t = some w ∧ r.peso_interacao = some w) ∧
    (clean_interacoes df).Sublist
      (df.map (fun r => pesoAttach (interTransform r))) ∧
    (∀ r ∈ df, (pesoAttach (interTransform r) ∈ clean_interacoes df ↔
      ((r.data_interacao.toDatetime).isDat = true ∧
        roleValidTipo (normalizeStr r.tipo_interacao) = true))) ∧
    (weightLookup (str "curtida") = some 1 ∧
      weightLookup (str "comentario") = some 2 ∧
      weightLookup (str "compartilhamento") = some 3 ∧
      ∀ t w, weightLookup t = some w →
        (t = str "curtida" ∨ t = str "comentario" ∨
          t = str "compartilhamento")) := by
  refine ⟨?_, ?_, ?_, by decide, by decide, by decide, ?_⟩
  · intro r hr
    rcases mem_clean_interacoes hr with ⟨⟨r0, _, rfl⟩, _, hvt⟩
    rw [roleValidTipo.eq_def] at hvt
    cases htipo : (pesoAttach (interTransform r0)).tipo_interacao with
    | none =>
      rw [htipo] at hvt
      simp at hvt
    | some t =>
      rw [htipo] at hvt
      have hvt' : (weightLookup t).isSome = true := hvt
      rcases Option.isSome_iff_exists.mp hvt' with ⟨w, hw⟩
      refine ⟨t, w, rfl, hw, ?_⟩
      show (interTransform r0).tipo_interacao.bind weightLookup = some w
      have ht' : (interTransform r0).tipo_interacao = some t := htipo
      rw [ht']
      exact hw
  · unfold clean_interacoes
    have hsub : (((df.map interTransform).filter
        (fun r => r.data_interacao.isDat)).filter
          (fun r => roleValidTipo r.tipo_interacao)).Sublist
        (df.map interTransform) :=
      (List.filter_sublist _).trans (List.filter_sublist _)
    have := hsub.map pesoAttach
    rw [List.map_map] at this
    exact this
  · intro r hr
    constructor
    · intro hmem
      unfold clean_interacoes at hmem
      rcases List.mem_map.mp hmem with ⟨x, hx, hPeq⟩
      have hvt := List.of_mem_filter hx
      have hx1 := List.mem_of_mem_filter hx
      have hvd := List.of_mem_filter hx1
      have hdata : x.data_interacao =
          (interTransform r).data_interacao := by
        have h1 : (pesoAttach x).data_interacao = x.data_interacao := rfl
        have h2 : (pesoAttach (interTransform r)).data_interacao =
            (interTransform r).data_interacao := rfl
        rw [← h1, ← h2, hPeq]
      have htipo : x.tipo_interacao = (interTransform r).tipo_interacao := by
        have h1 : (pesoAttach x).tipo_interacao = x.tipo_interacao := rfl
        have h2 : (pesoAttach (interTransform r)).tipo_interacao =
            (interTransform r).tipo_interacao := rfl
        rw [← h1, ← h2, hPeq]
      constructor
      · have : (interTransform r).data_interacao =
            r.data_interacao.toDatetime := rfl
        rw [← this, ← hdata]
        exact hvd
      · have : (interTransform r).tipo_interacao =
            normalizeStr r.tipo_interacao := rfl
        rw [← this, ← htipo]
        exact hvt
    · rintro ⟨hvd, hvt⟩
      unfold clean_interacoes
      refine List.mem_map_of_mem pesoAttach ?_
      refine List.mem_filter.mpr ⟨List.mem_filter.mpr
        ⟨List.mem_map_of_mem interTransform hr, hvd⟩, hvt⟩
  · intro t w hw
    unfold weightLookup at hw
    cases hf : INTERACTION_WEIGHTS.find? (fun p => p.1 = t) with
    | none =>
      rw [hf] at hw
      simp at hw
    | some p =>
      have hp := List.find?_some hf
      have hpm := List.mem_of_find?_eq_some hf
      have hpt : p.1 = t := by simpa using hp
      rw [INTERACTION_WEIGHTS] at hpm
      rcases List.mem_cons.mp hpm with rfl | hpm'
      · exact Or.inl hpt.symm
      rcases List.mem_cons.mp hpm' with rfl | hpm''
      · exact Or.inr (Or.inl hpt.symm)
      rcases List.mem_cons.mp hpm'' with rfl | hpm'''
      · exact Or.inr (Or.inr hpt.symm)
      · simp at hpm'''

/-- C2 witness: a row with an upper-cased, padded type and a valid date
survives cleaning with the looked-up weight. -/
theorem C2_weights_match_table_witness :
    pesoAttach (interTransform
      ⟨1, 101, 1, some (str " Curtida"), .txt (str "2025-10-01"), none⟩) ∈
      clean_interacoes
        [⟨1, 101, 1, some (str " Curtida"), .txt (str "2025-10-01"),
          none⟩] :=
  ((C2_weights_match_table
    [⟨1, 101, 1, some (str " Curtida"), .txt (str "2025-10-01"), none⟩]).2.2.1
      _ (List.mem_cons_self _ _)).mpr (by decide)

theorem dayOf_isSome_of_isDat {c : Cell} (h : c.isDat = true) :
    c.dayOf.isSome = true := by
  cases c with
  | na => simp [Cell.isDat] at h
  | txt s => simp [Cell.isDat] at h
  | dat d => rfl

theorem timeline_eq_of_minmax (df : List EngRow) {lo hi : Int}
    (hlo : listMin (df.filterMap (fun r => r.data_interacao.dayOf)) = some lo)
    (hhi : listMax (df.filterMap (fun r => r.data_interacao.dayOf)) = some hi) :
    timeline_engajamento df =
      (List.range (hi - lo + 1).toNat).map (fun k =>
        { data_interacao := lo + k
          interacoes := (df.filter
            (fun r => r.data_interacao.dayOf = some (lo + (k : Int)))).length
          score := ((df.filter
            (fun r => r.data_interacao.dayOf = some (lo + (k : Int)))).map
              pesoVal).sum }) := by
  unfold timeline_engajamento
  dsimp only
  rw [hlo, hhi]

/-- C3: on a non-empty unified collection the daily timeline has exactly
`(max day − min day) + 1` rows, in strictly ascending day order, one row per
calendar day of the continuous range; a day with no interaction appears with
count 0 and score 0, every other day carries its interaction count and sum
of weights. -/
theorem C3_timeline_continuous_range (df : List EngRow) (hne : df ≠ [])
    (hdat : ∀ r ∈ df, r.data_interacao.isDat = true) :
    ∃ lo hi,
      listMin (df.filterMap (fun r => r.data_interacao.dayOf)) = some lo ∧
      listMax (df.filterMap (fun r => r.data_interacao.dayOf)) = some hi ∧
      lo ≤ hi ∧
      (timeline_engajamento df).length = (hi - lo + 1).toNat ∧
      timeline_engajamento df =
        (List.range (hi - lo + 1).toNat).map (fun k : Nat =>
          { data_interacao := lo + (k : Int)
            interacoes := (df.filter
              (fun r => r.data_interacao.dayOf = some (lo + (k : Int)))).length
            score := ((df.filter
              (fun r => r.data_interacao.dayOf = some (lo + (k : Int)))).map
                pesoVal).sum }) ∧
      ((timeline_engajamento df).map (·.data_interacao)).Sorted (· < ·) := by
  have hlen : (df.filterMap (fun r => r.data_interacao.dayOf)).length =
      df.length :=
    length_filterMap_of_isSome _ _
      (fun r hr => dayOf_isSome_of_isDat (hdat r hr))
  have hpos : 0 < df.length := by
    cases df with
    | nil => exact absurd rfl hne
    | cons a as => simp
  obtain ⟨d0, ds, hds⟩ : ∃ d0 ds,
      df.filterMap (fun r => r.data_interacao.dayOf) = d0 :: ds := by
    cases hd : df.filterMap (fun r => r.data_interacao.dayOf) with
    | nil =>
      rw [hd] at hlen
      simp at hlen
      omega
    | cons d0 ds => exact ⟨d0, ds, rfl⟩
  obtain ⟨lo, hlo⟩ : ∃ lo,
      listMin (df.filterMap (fun r => r.data_interacao.dayOf)) = some lo := by
    rw [hds, listMin]
    exact ⟨_, rfl⟩
  obtain ⟨hi, hhi⟩ : ∃ hi,
      listMax (df.filterMap (fun r => r.data_interacao.dayOf)) = some hi := by
    rw [hds, listMax]
    exact ⟨_, rfl⟩
  have hlohi : lo ≤ hi :=
    listMax_ge hhi lo (listMin_mem hlo)
  have heq := timeline_eq_of_minmax df hlo hhi
  refine ⟨lo, hi, hlo, hhi, hlohi, ?_, heq, ?_⟩
  · rw [heq, List.length_map, List.length_range]
  · rw [heq, List.map_map]
    have hcomp : ((fun r : TimelineRow => r.data_interacao) ∘ (fun k : Nat =>
        ({ data_interacao := lo + (k : Int)
           interacoes := (df.filter
             (fun r => r.data_interacao.dayOf = some (lo + (k : Int)))).length
           score := ((df.filter
             (fun r => r.data_interacao.dayOf = some (lo + (k : Int)))).map
               pesoVal).sum } : TimelineRow))) =
        (fun k : Nat => lo + (k : Int)) := rfl
    rw [hcomp]
    refine List.Pairwise.map _ ?_ (List.sorted_lt_range _)
    intro a b hab
    omega

/-- C3 witness: a two-row collection with a one-day gap (days 10 and 12)
satisfies all timeline properties. -/
theorem C3_timeline_continuous_range_witness :
    (timelineWitnessDf ≠ [] ∧ ∀ r ∈ timelineWitnessDf,
      r.data_interacao.isDat = true) ∧
    ∃ lo hi,
      listMin (timelineWitnessDf.filterMap
        (fun r => r.data_interacao.dayOf)) = some lo ∧
      listMax (timelineWitnessDf.filterMap
        (fun r => r.data_interacao.dayOf)) = some hi ∧
      lo ≤ hi ∧
      (timeline_engajamento timelineWitnessDf).length =
        (hi - lo + 1).toNat ∧
      timeline_engajamento timelineWitnessDf =
        (List.range (hi - lo + 1).toNat).map (fun k : Nat =>
          { data_interacao := lo + (k : Int)
            interacoes := (timelineWitnessDf.filter
              (fun r => r.data_interacao.dayOf = some (lo + (k : Int)))).length
            score := ((timelineWitnessDf.filter
              (fun r => r.data_interacao.dayOf = some (lo + (k : Int)))).map
                pesoVal).sum }) ∧
      ((timeline_engajamento timelineWitnessDf).map
        (·.data_interacao)).Sorted (· < ·) :=
  ⟨⟨by decide, by decide⟩,
    C3_timeline_continuous_range timelineWitnessDf (by decide) (by decide)⟩

theorem headPD_eq_take {α : Type} (n : Int) (l : List α) :
    headPD n l = l.take (if 0 ≤ n then n.toNat else l.length - (-n).toNat) := by
  unfold headPD
  split
  · rfl
  · rfl

theorem rank_rows_project_to_keys (df : List EngRow)
    (ks : List (Int × List Nat)) :
    ((ks.map (fun k =>
      ({ autor_id := k.1
         autor_nome := k.2
         score_engajamento := ((df.filter
           (fun r => authorKey r = some k)).map pesoVal).sum } : RankRow))).map
            (fun g => (g.autor_id, g.autor_nome))) = ks := by
  induction ks with
  | nil => rfl
  | cons k ks ih => simp [ih]

/-- C4 counterexample: pandas `head` with a negative argument returns all
rows but the last `|n|`, so `top_n = -1` over two authors yields a
non-empty ranking, contradicting "N ≤ 0 yields an empty result". -/
theorem C4_negative_top_n_counterexample :
    top_autores_por_engajamento
      [⟨1, 101, 1, some (str "curtida"), .dat 0, some 1, some 1,
          some (str "v"), .dat 0, some (str "a"), some (str "x"),
          some (str "a"), some (str "x"), some 0⟩,
        ⟨2, 102, 1, some (str "curtida"), .dat 0, some 1, some 2,
          some (str "v"), .dat 0, some (str "b"), some (str "x"),
          some (str "a"), some (str "x"), some 0⟩] (-1) ≠ [] := by
  decide

/-- C4 (amended): the author ranking groups rows by author id and name, sums
weights as `score_engajamento`, sorts descending by score with ties kept in
group-iteration order (stable), and truncates with `head`: the first N rows
for N ≥ 0 (default 5), the empty list for N = 0; a negative N instead keeps
all but the last `|N|` rows. -/
theorem C4_author_ranking (df : List EngRow) (n : Int) :
    (top_autores_por_engajamento df n).Sorted rankGe ∧
    (∀ g ∈ top_autores_por_engajamento df n,
      g.score_engajamento = ((df.filter
        (fun r => authorKey r = some (g.autor_id, g.autor_nome))).map
          pesoVal).sum) ∧
    ((rankingGroups df).map (fun g => (g.autor_id, g.autor_nome))).Perm
      (dedupFirst (df.filterMap authorKey)) ∧
    (0 ≤ n → (top_autores_por_engajamento df n).length =
      min n.toNat (rankingGroups df).length) ∧
    top_autores_por_engajamento df =
      headPD 5 (List.insertionSort rankGe (rankingGroups df)) ∧
    top_autores_por_engajamento df 0 = [] ∧
    (∀ s : Int, (List.insertionSort rankGe (rankingGroups df)).filter
      (fun g => g.score_engajamento = s) =
      (rankingGroups df).filter (fun g => g.score_engajamento = s)) := by
  have htake : top_autores_por_engajamento df n =
      (List.insertionSort rankGe (rankingGroups df)).take
        (if 0 ≤ n then n.toNat
          else (List.insertionSort rankGe (rankingGroups df)).length -
            (-n).toNat) := by
    unfold top_autores_por_engajamento
    rw [headPD_eq_take]
  refine ⟨?_, ?_, ?_, ?_, rfl, rfl, fun s => filter_score_insertionSort s _⟩
  · rw [htake]
    exact List.Pairwise.sublist (List.take_sublist _ _)
      (List.sorted_insertionSort rankGe _)
  · intro g hg
    have hg1 : g ∈ List.insertionSort rankGe (rankingGroups df) := by
      rw [htake] at hg
      exact (List.take_sublist _ _).subset hg
    have hg2 : g ∈ rankingGroups df := by
      rw [List.mem_insertionSort] at hg1
      exact hg1
    unfold rankingGroups at hg2
    rcases List.mem_map.mp hg2 with ⟨k, hk, rfl⟩
    rfl
  · unfold rankingGroups
    rw [rank_rows_project_to_keys]
    exact List.perm_insertionSort _ _
  · intro hn
    rw [htake, if_pos hn, List.length_take, List.length_insertionSort]

/-- C4 witness: at the default cut-off the ranking length is the min of 5
and the number of author groups. -/
theorem C4_author_ranking_witness :
    (top_autores_por_engajamento
      [⟨1, 101, 1, some (str "curtida"), .dat 0, some 1, some 1,
          some (str "v"), .dat 0, some (str "a"), some (str "x"),
          some (str "a"), some (str "x"), some 0⟩,
        ⟨2, 102, 1, some (str "curtida"), .dat 0, some 1, some 2,
          some (str "v"), .dat 0, some (str "b"), some (str "x"),
          some (str "a"), some (str "x"), some 0⟩] 5).length =
      min (5 : Int).toNat
        (rankingGroups
          [⟨1, 101, 1, some (str "curtida"), .dat 0, some 1, some 1,
              some (str "v"), .dat 0, some (str "a"), some (str "x"),
              some (str "a"), some (str "x"), some 0⟩,
            ⟨2, 102, 1, some (str "curtida"), .dat 0, some 1, some 2,
              some (str "v"), .dat 0, some (str "b"), some (str "x"),
              some (str "a"), some (str "x"), some 0⟩]).length :=
  (C4_author_ranking _ 5).2.2.2.1 (by decide)

theorem distribuicao_eq (df : List EngRow) :
    distribuicao_tipo_interacao df =
      List.insertionSort tipoGe
        ((List.insertionSort catKeyLe
          (dedupFirst (df.filterMap (·.tipo_interacao)))).map (fun t =>
            { tipo_interacao := t
              quantidade := (df.filterMap (·.tipo_interacao)).count t
              percentual := if df.length = 0 then 0
                else round2
                  (((df.filterMap (·.tipo_interacao)).count t : ℚ) /
                    (df.length : ℚ) * 100) })) := rfl

theorem tipo_rows_project_to_keys (df : List EngRow)
    (ks : List (List Nat)) :
    ((ks.map (fun t =>
      ({ tipo_interacao := t
         quantidade := (df.filterMap (·.tipo_interacao)).count t
         percentual := if df.length = 0 then 0
           else round2
             (((df.filterMap (·.tipo_interacao)).count t : ℚ) /
               (df.length : ℚ) * 100) } : TipoRow))).map
            (·.tipo_interacao)) = ks := by
  induction ks with
  | nil => rfl
  | cons k ks ih =>
    rw [List.map_cons, List.map_cons, ih]

/-- C5: the interaction-type distribution has one row per distinct type with
its count, percentage `round(count / total * 100, 2)`, ordered descending by
count; with a positive total the percentages sum to 100 up to the rounding
error of each row, and with total 0 every percentage is 0 (no division by
zero occurs). -/
theorem C5_distribution_percentages (df : List EngRow)
    (ht : ∀ r ∈ df, r.tipo_interacao.isSome = true) :
    ((distribuicao_tipo_interacao df).map (·.tipo_interacao)).Perm
      (dedupFirst (df.filterMap (·.tipo_interacao))) ∧
    (∀ row ∈ distribuicao_tipo_interacao df,
      row.quantidade =
        (df.filterMap (·.tipo_interacao)).count row.tipo_interacao ∧
      row.percentual = if df.length = 0 then 0
        else round2
          ((row.quantidade : ℚ) / (df.length : ℚ) * 100)) ∧
    (distribuicao_tipo_interacao df).Sorted tipoGe ∧
    (df.length = 0 → ∀ row ∈ distribuicao_tipo_interacao df,
      row.percentual = 0) ∧
    (0 < df.length →
      |((distribuicao_tipo_interacao df).map (·.percentual)).sum - 100| ≤
        ((distribuicao_tipo_interacao df).length : ℚ) * (1 / 200)) := by
  have hrowfacts : ∀ row ∈ distribuicao_tipo_interacao df,
      row.quantidade =
        (df.filterMap (·.tipo_interacao)).count row.tipo_interacao ∧
      row.percentual = if df.length = 0 then 0
        else round2
          ((row.quantidade : ℚ) / (df.length : ℚ) * 100) := by
    intro row hrow
    rw [distribuicao_eq] at hrow
    rw [List.mem_insertionSort] at hrow
    rcases List.mem_map.mp hrow with ⟨t, _, rfl⟩
    exact ⟨rfl, rfl⟩
  refine ⟨?_, hrowfacts, ?_, ?_, ?_⟩
  · rw [distribuicao_eq]
    refine ((List.perm_insertionSort tipoGe _).map (·.tipo_interacao)).trans
      ?_
    rw [tipo_rows_project_to_keys]
    exact List.perm_insertionSort _ _
  · rw [distribuicao_eq]
    exact List.sorted_insertionSort tipoGe _
  · intro h0 row hrow
    rcases hrowfacts row hrow with ⟨_, hp⟩
    rw [hp, if_pos h0]
  · intro hpos
    have htotQ : ((df.length : ℚ)) ≠ 0 := by
      exact_mod_cast Nat.pos_iff_ne_zero.mp hpos
    have hlen_tipos : (df.filterMap (·.tipo_interacao)).length = df.length :=
      length_filterMap_of_isSome _ _ ht
    have hpermd : (distribuicao_tipo_interacao df).Perm
        ((List.insertionSort catKeyLe
          (dedupFirst (df.filterMap (·.tipo_interacao)))).map (fun t =>
            ({ tipo_interacao := t
               quantidade := (df.filterMap (·.tipo_interacao)).count t
               percentual := if df.length = 0 then 0
                 else round2
                   (((df.filterMap (·.tipo_interacao)).count t : ℚ) /
                     (df.length : ℚ) * 100) } : TipoRow))) := by
      rw [distribuicao_eq]
      exact List.perm_insertionSort _ _
    have hsum1 : ((distribuicao_tipo_interacao df).map (·.percentual)).sum =
        (((List.insertionSort catKeyLe
          (dedupFirst (df.filterMap (·.tipo_interacao)))).map (fun t =>
            ({ tipo_interacao := t
               quantidade := (df.filterMap (·.tipo_interacao)).count t
               percentual := if df.length = 0 then 0
                 else round2
                   (((df.filterMap (·.tipo_interacao)).count t : ℚ) /
                     (df.length : ℚ) * 100) } : TipoRow))).map
                (·.percentual)).sum :=
      (hpermd.map (·.percentual)).sum_eq
    have hlen1 : (distribuicao_tipo_interacao df).length =
        (List.insertionSort catKeyLe
          (dedupFirst (df.filterMap (·.tipo_interacao)))).length := by
      rw [distribuicao_eq, List.length_insertionSort, List.length_map]
    set keys := List.insertionSort catKeyLe
      (dedupFirst (df.filterMap (·.tipo_interacao))) with hkeys
    have h0 : ¬ (df.length = 0) := by omega
    have hmap2 : ((keys.map (fun t =>
        ({ tipo_interacao := t
           quantidade := (df.filterMap (·.tipo_interacao)).count t
           percentual := if df.length = 0 then 0
             else round2
               (((df.filterMap (·.tipo_interacao)).count t : ℚ) /
                 (df.length : ℚ) * 100) } : TipoRow))).map
            (·.percentual)) =
        (keys.map (fun t =>
          (((df.filterMap (·.tipo_interacao)).count t : ℚ) /
            (df.length : ℚ) * 100))).map round2 := by
      rw [List.map_map, List.map_map]
      refine List.map_congr_left (fun t _ => ?_)
      show (if df.length = 0 then 0
        else round2
          (((df.filterMap (·.tipo_interacao)).count t : ℚ) /
            (df.length : ℚ) * 100)) = _
      rw [if_neg h0]
      rfl
    have hqsum : (keys.map (fun t =>
        (((df.filterMap (·.tipo_interacao)).count t : ℚ) /
          (df.length : ℚ) * 100))).sum = 100 := by
      have hpt : (keys.map (fun t =>
          (((df.filterMap (·.tipo_interacao)).count t : ℚ) /
            (df.length : ℚ) * 100))) =
          (keys.map (fun t =>
            (((df.filterMap (·.tipo_interacao)).count t : ℚ) * 100) /
              (df.length : ℚ))) := by
        refine List.map_congr_left (fun t _ => ?_)
        ring
      rw [hpt, sum_map_div, sum_map_castmul]
      have hcountsum : ((keys.map
          (fun t => (df.filterMap (·.tipo_interacao)).count t)).sum) =
          df.length := by
        have hpk : keys.Perm
            (dedupFirst (df.filterMap (·.tipo_interacao))) :=
          List.perm_insertionSort _ _
        have := (hpk.map
          (fun t => (df.filterMap (·.tipo_interacao)).count t)).sum_eq
        rw [this, sum_count_dedupFirst, hlen_tipos]
      rw [hcountsum]
      field_simp
    rw [hsum1, hmap2]
    have hclose := sum_round2_close (keys.map (fun t =>
      (((df.filterMap (·.tipo_interacao)).count t : ℚ) /
        (df.length : ℚ) * 100)))
    rw [hqsum] at hclose
    rw [hlen1]
    rw [List.length_map] at hclose
    exact hclose

/-- C5 witness: a three-row collection with two types satisfies the
distribution properties, in particular the percentage-sum bound. -/
theorem C5_distribution_percentages_witness :
    0 < (distributionWitnessDf.length) ∧
    |((distribuicao_tipo_interacao distributionWitnessDf).map
      (·.percentual)).sum - 100| ≤
      ((distribuicao_tipo_interacao distributionWitnessDf).length : ℚ) *
        (1 / 200) :=
  ⟨by decide,
    (C5_distribution_percentages distributionWitnessDf (by decide)).2.2.2.2
      (by decide)⟩

end SocialNet
